import Mathlib

/-!
Verification of the my-no-sql-sdk core (my-no-sql-core crate) against its
natural-language specification.

The Rust source is shallowly embedded:
* byte buffers and string slices become `List Char`,
* `DateTimeAsMicroseconds` becomes its `unix_microseconds : Int` payload,
* `usize` counters become `Nat` (Rust release-mode subtraction under the
  maintained invariants never underflows; where it could, `Nat` truncated
  subtraction mirrors the saturating outcome noted at the definition),
* `Arc<DbRow>` sharing is modelled by storing row values; the only mutation
  of a shared row (`update_expires`) is modelled by replacing the row value
  at its key inside the owning container, which is where the source mutates
  it through the `Arc` obtained from that container,
* fallible operations return `Option`.

Every definition is translated from the Rust source of the repository,
except the few marked `Modelled from the spec:` whose source file is not
part of the provided sources.
-/

namespace MyNoSql

/-- Mirrors the trait `ExpirationIndex` of `expiration_index.rs` (the
`to_owned` conversion of the source is the identity in this model: the
container stores the same value it is given, as the `Arc<DbRow>` instance
does). Moments are `DateTimeAsMicroseconds.unix_microseconds` values. -/
class ExpirationIndexEntry (α : Type) where
  get_id_as_str : α → List Char
  get_expiration_moment : α → Option Int

export ExpirationIndexEntry (get_id_as_str get_expiration_moment)

/-- `ExpirationIndexItem` of `expiration_index.rs`: one bucket, a moment and
the items expiring at that exact moment. -/
structure ExpirationIndexItem (α : Type) where
  moment : Int
  items : List α
deriving DecidableEq

/-- `ExpirationIndexContainer` of `expiration_index.rs`: buckets kept sorted
ascending by `moment`, plus the `amount` counter. -/
structure ExpirationIndexContainer (α : Type) where
  index : List (ExpirationIndexItem α)
  amount : Nat
deriving DecidableEq

namespace ExpirationIndexContainer

/-- Empty container (`ExpirationIndexContainer::new`). -/
def new (α : Type) : ExpirationIndexContainer α := { index := [], amount := 0 }

/-- The `Ok`/`Err` outcome of `find_index` (a `binary_search_by` over the
moments of the sorted bucket list; on the sorted, duplicate-free lists the
container maintains, binary search coincides with this left-to-right scan).
`ok i` means bucket `i` has the sought moment, `error i` is the insertion
point. -/
def find_index {α : Type} : List (ExpirationIndexItem α) → Int → Except Nat Nat
  | [], _ => .error 0
  | b :: rest, m =>
    if b.moment = m then .ok 0
    else if b.moment < m then
      match find_index rest m with
      | .ok i => .ok (i + 1)
      | .error i => .error (i + 1)
    else .error 0

/-- Core of `ExpirationIndexContainer::add` acting on the bucket list: the
`Ok` branch pushes the item into the existing bucket unless an item with the
same id is already there (in both cases the source computes `added = false`);
the `Err` branch inserts a fresh bucket and computes `added = true`. -/
def add_to_index {α : Type} [ExpirationIndexEntry α]
    (l : List (ExpirationIndexItem α)) (item : α) (m : Int) :
    List (ExpirationIndexItem α) × Bool :=
  match l with
  | [] => ([⟨m, [item]⟩], true)
  | b :: rest =>
    if b.moment = m then
      (if b.items.any (fun x => get_id_as_str x == get_id_as_str item) then
        b :: rest
      else
        { b with items := b.items ++ [item] } :: rest, false)
    else if b.moment < m then
      let r := add_to_index rest item m
      (b :: r.1, r.2)
    else (⟨m, [item]⟩ :: b :: rest, true)

/-- `ExpirationIndexContainer::add`: returns the new container and the
`Option<bool>` result of the source (`none` when the item has no expiration
moment). `amount` is incremented exactly when `added` is `true`, i.e. when a
fresh bucket was created. -/
def add {α : Type} [ExpirationIndexEntry α] (c : ExpirationIndexContainer α)
    (item : α) : ExpirationIndexContainer α × Option Bool :=
  match get_expiration_moment item with
  | none => (c, none)
  | some m =>
    let r := add_to_index c.index item m
    ({ index := r.1, amount := if r.2 then c.amount + 1 else c.amount }, some r.2)

/-- Core of `do_remove` acting on the bucket list: in the bucket with the
sought moment, retain the items whose id differs (`ExpirationIndexItem::remove`)
and drop the bucket if it became empty. The returned flag tells whether the
moment was found (`find_index` returned `Ok`). -/
def remove_from_index {α : Type} [ExpirationIndexEntry α]
    (l : List (ExpirationIndexItem α)) (m : Int) (key : List Char) :
    List (ExpirationIndexItem α) × Bool :=
  match l with
  | [] => ([], false)
  | b :: rest =>
    if b.moment = m then
      let items := b.items.filter (fun x => !(get_id_as_str x == key))
      (if items.isEmpty then rest else { b with items := items } :: rest, true)
    else if b.moment < m then
      let r := remove_from_index rest m key
      (b :: r.1, r.2)
    else (b :: rest, false)

/-- `ExpirationIndexContainer::do_remove`: when `find_index` finds the moment,
the matching ids are removed and `amount` is decremented (unconditionally in
that branch). When the moment is not in the index the production build logs
and continues (the test build would panic); the model keeps the production
behaviour and leaves the container unchanged. -/
def do_remove {α : Type} [ExpirationIndexEntry α]
    (c : ExpirationIndexContainer α) (m : Int) (key : List Char) :
    ExpirationIndexContainer α :=
  let r := remove_from_index c.index m key
  if r.2 then { index := r.1, amount := c.amount - 1 } else c

/-- `ExpirationIndexContainer::remove`. -/
def remove {α : Type} [ExpirationIndexEntry α] (c : ExpirationIndexContainer α)
    (itm : α) : ExpirationIndexContainer α :=
  match get_expiration_moment itm with
  | none => c
  | some m => do_remove c m (get_id_as_str itm)

/-- `ExpirationIndexContainer::update`: remove at the old moment (when
present), then `add` at the item's current moment. -/
def update {α : Type} [ExpirationIndexEntry α] (c : ExpirationIndexContainer α)
    (old_expires : Option Int) (itm : α) : ExpirationIndexContainer α :=
  let c1 := match old_expires with
    | some o => do_remove c o (get_id_as_str itm)
    | none => c
  (c1.add itm).1

/-- `ExpirationIndexContainer::get_items_to_expire`: scan buckets in order,
stopping at the first bucket whose moment is strictly greater than `now`.
The source applies a `transform` to every collected item; callers of the
model `map` over the returned items instead. -/
def get_items_to_expire {α : Type} (c : ExpirationIndexContainer α)
    (now : Int) : List α :=
  (c.index.takeWhile (fun b => decide (b.moment ≤ now))).foldl
    (fun acc b => acc ++ b.items) []

/-- `ExpirationIndexContainer::has_data_with_expiration_moment`. -/
def has_data_with_expiration_moment {α : Type}
    (c : ExpirationIndexContainer α) (m : Int) : Bool :=
  match find_index c.index m with
  | .ok _ => true
  | .error _ => false

/-- `ExpirationIndexContainer::len`: returns the `amount` counter. -/
def len {α : Type} (c : ExpirationIndexContainer α) : Nat := c.amount

/-- `ExpirationIndexContainer::clear`: the source clears only the bucket
vector (`self.index.clear()`); the `amount` counter is left untouched. -/
def clear {α : Type} (c : ExpirationIndexContainer α) :
    ExpirationIndexContainer α :=
  { c with index := [] }

/-- Total number of items across all buckets (the quantity the source's
test-only `assert_len` compares `len()` against). -/
def total_items {α : Type} (c : ExpirationIndexContainer α) : Nat :=
  (c.index.map (fun b => b.items.length)).sum

end ExpirationIndexContainer

/-- The test item shape of `expiration_index.rs` (`TestExpirationItem`): an
id plus an optional expiration moment; also the shape of
`DbPartitionExpirationIndexOwned`. -/
structure TestExpirationItem where
  key : List Char
  expires : Option Int
deriving DecidableEq

instance : ExpirationIndexEntry TestExpirationItem where
  get_id_as_str i := i.key
  get_expiration_moment i := i.expires

/-- Modelled from the spec: `KeyValueContentPosition` of the `db_json_entity`
module (its source file is not among the provided sources; the spec describes
it as a pair of byte offsets into `raw` whose slice is the field's value).
The source field `end` is a Lean keyword and is named `endPos` here. -/
structure KeyValueContentPosition where
  start : Nat
  endPos : Nat
deriving DecidableEq

/-- Modelled from the spec: `get_str_value` returns the zero-copy slice
`raw[start..end]`. -/
def KeyValueContentPosition.get_str_value (p : KeyValueContentPosition)
    (raw : List Char) : List Char :=
  (raw.drop p.start).take (p.endPos - p.start)

/-- Modelled from the spec: `JsonKeyValuePosition` of the `db_json_entity`
module — the pair of ranges covering the whole `"Expires":"…"` key/value
pair; `key.start` is the opening quote of the key and `value.endPos` is one
past the closing quote of the value (these are the bounds `write_json`
splices over). -/
structure JsonKeyValuePosition where
  key : KeyValueContentPosition
  value : KeyValueContentPosition
deriving DecidableEq

/-- Modelled from the spec: `get_the_end_of_the_json` of the `db_json_entity`
module locates the closing `}` of the top-level object — the position of the
last `}` of the buffer. -/
def get_the_end_of_the_json (raw : List Char) : Nat :=
  match raw.reverse.findIdx? (fun c => c == '}') with
  | some i => raw.length - 1 - i
  | none => raw.length

/-- Zero-padded decimal digits of `n`, exactly `w` characters wide (the low
`w` digits). Helper for the RFC3339 rendering. -/
def pad_digits : Nat → Nat → List Char
  | 0, _ => []
  | w + 1, n => pad_digits w (n / 10) ++ [Char.ofNat (48 + n % 10)]

/-- Days-since-epoch to civil (year, month, day), the standard era-based
conversion. Helper for the RFC3339 rendering. -/
def civil_from_days (z0 : Int) : Int × Nat × Nat :=
  let z := z0 + 719468
  let era : Int := z.fdiv 146097
  let doe : Nat := (z - era * 146097).toNat
  let yoe : Nat := (doe - doe / 1460 + doe / 36524 - doe / 146096) / 365
  let y : Int := (yoe : Int) + era * 400
  let doy : Nat := doe - (365 * yoe + yoe / 4 - yoe / 100)
  let mp : Nat := (5 * doy + 2) / 153
  let d : Nat := doy - (153 * mp + 2) / 5 + 1
  let m : Nat := if mp < 10 then mp + 3 else mp - 9
  (if m ≤ 2 then y + 1 else y, m, d)

/-- Model of the external `rust_extensions`
`DateTimeAsMicroseconds::to_rfc3339`: the RFC3339 rendering of a
unix-microseconds moment, `YYYY-MM-DDThh:mm:ss.ffffffZ`. The source only
ever uses its first 19 characters (`[..19]`), the seconds-precision
`YYYY-MM-DDThh:mm:ss` part. -/
def to_rfc3339 (micros : Int) : List Char :=
  let secs := micros.fdiv 1000000
  let frac := (micros - secs * 1000000).toNat
  let days := secs.fdiv 86400
  let sod := (secs - days * 86400).toNat
  let ymd := civil_from_days days
  pad_digits 4 ymd.1.toNat ++ ['-'] ++ pad_digits 2 ymd.2.1 ++ ['-'] ++
    pad_digits 2 ymd.2.2 ++ ['T'] ++ pad_digits 2 (sod / 3600) ++ [':'] ++
    pad_digits 2 (sod % 3600 / 60) ++ [':'] ++ pad_digits 2 (sod % 60) ++
    ['.'] ++ pad_digits 6 frac ++ ['Z']

/-- `DbRow` of `db_row.rs` (master-node layout). `expires_value` is the
atomic unix-microseconds value, `0` meaning "no expiration"; `raw` is the
immutable byte buffer. -/
structure DbRow where
  partition_key : KeyValueContentPosition
  row_key : KeyValueContentPosition
  raw : List Char
  expires_value : Int
  expires : Option JsonKeyValuePosition
  time_stamp : KeyValueContentPosition
  last_read_access : Int
deriving DecidableEq

namespace DbRow

/-- `DbRow::get_partition_key`: zero-copy slice of `raw`. -/
def get_partition_key (r : DbRow) : List Char :=
  r.partition_key.get_str_value r.raw

/-- `DbRow::get_row_key`: zero-copy slice of `raw`. -/
def get_row_key (r : DbRow) : List Char :=
  r.row_key.get_str_value r.raw

/-- `DbRow::get_time_stamp` of `db_row.rs`: the source body is
`self.row_key.get_str_value(&self.raw)` — it returns the slice designated by
the `row_key` position, not the one designated by `time_stamp`. -/
def get_time_stamp (r : DbRow) : List Char :=
  r.row_key.get_str_value r.raw

/-- `DbRow::get_expires`: `none` iff the atomic `expires_value` is `0`. -/
def get_expires (r : DbRow) : Option Int :=
  if r.expires_value = 0 then none else some r.expires_value

/-- `DbRow::update_expires`: read the old value, then store the new one
(`0` for `None`). Returns the old value paired with the updated row (the
source mutates the shared atomic in place). -/
def update_expires (r : DbRow) (expires : Option Int) : Option Int × DbRow :=
  (r.get_expires,
   { r with expires_value := match expires with | some e => e | none => 0 })

end DbRow

/-- `find_json_separator_before` of `db_row.rs`: walk left from `pos` while
`i > 0`, skipping bytes `≤ 32`; report a `,` position, stop at any other
byte. Position `0` is never examined (the Rust loop guard is `i > 0`). An
out-of-range index (which would panic in Rust, and is never produced by
`write_json` on well-formed rows) yields `none`. -/
def find_json_separator_before (src : List Char) : Nat → Option Nat
  | 0 => none
  | i + 1 =>
    match src.get? (i + 1) with
    | none => none
    | some b =>
      if b.toNat ≤ 32 then find_json_separator_before src i
      else if b = ',' then some (i + 1)
      else none

/-- The loop of `find_json_separator_after`, recursing on the remaining
length (`fuel`, initially `src.length - pos`, which bounds the iterations of
the Rust `while i < src.len()` loop): skip bytes `≤ 32`; a `,` at position
`i` yields `i + 1`, any other byte stops the search; running past the end of
the buffer yields `none`. -/
def find_json_separator_after_loop (src : List Char) : Nat → Nat → Option Nat
  | 0, _ => none
  | fuel + 1, i =>
    match src.get? i with
    | none => none
    | some b =>
      if b.toNat ≤ 32 then find_json_separator_after_loop src fuel (i + 1)
      else if b = ',' then some (i + 1)
      else none

/-- `find_json_separator_after` of `db_row.rs`: walk right from `pos` while
in bounds, skipping bytes `≤ 32`; a `,` at position `i` yields `i + 1`, any
other byte stops the search. -/
def find_json_separator_after (src : List Char) (pos : Nat) : Option Nat :=
  find_json_separator_after_loop src (src.length - pos) pos

/-- `inject_expires` of `db_row.rs`: emits
`"Expires":"<rfc3339(v)[..19]>"`. -/
def inject_expires (expires_value : Int) : List Char :=
  ['"'] ++ "Expires".toList ++ "\":\"".toList ++
    (to_rfc3339 expires_value).take 19 ++ ['"']

/-- `DbRow::write_json` of `db_row.rs` (master-node variant), emitting the
current document:
* no current expiration but `raw` holds an `Expires` field — excise it
  together with one adjacent comma (preceding comma preferred, else a
  trailing one, else a bare cut);
* no current expiration and no `Expires` in `raw` — emit `raw` verbatim;
* current expiration with an `Expires` field in `raw` — splice the injected
  pair over `raw[key.start..value.end]`;
* current expiration, no `Expires` in `raw` — insert `,"Expires":"…"` before
  the closing `}`. -/
def DbRow.write_json (r : DbRow) : List Char :=
  match r.get_expires with
  | none =>
    match r.expires with
    | some expires =>
      match find_json_separator_before r.raw (expires.key.start - 1) with
      | some before_separator =>
        r.raw.take before_separator ++ r.raw.drop expires.value.endPos
      | none =>
        match find_json_separator_after r.raw expires.value.endPos with
        | some after_separator =>
          r.raw.take expires.key.start ++ r.raw.drop after_separator
        | none =>
          r.raw.take expires.key.start ++ r.raw.drop expires.value.endPos
    | none => r.raw
  | some v =>
    match r.expires with
    | some expires =>
      r.raw.take expires.key.start ++ inject_expires v ++
        r.raw.drop expires.value.endPos
    | none =>
      let end_of_json := get_the_end_of_the_json r.raw
      r.raw.take end_of_json ++ [','] ++ inject_expires v ++
        r.raw.drop end_of_json

/-! Sorted containers. The external `rust_extensions::sorted_vec` types
(`SortedVecOfArcWithStrKey`, `SortedVecWithStrKey`) are vectors kept sorted
ascending by a string key, unique per key, accessed by binary search. On the
sorted duplicate-free lists they maintain, binary search coincides with the
left-to-right three-way scans below. -/

/-- Byte-wise (`str::cmp`) comparison of keys: on equal heads continue,
otherwise order by code point. -/
def cmp_chars : List Char → List Char → Ordering
  | [], [] => .eq
  | [], _ :: _ => .lt
  | _ :: _, [] => .gt
  | x :: xs, y :: ys =>
    if x = y then cmp_chars xs ys
    else if x.toNat < y.toNat then .lt
    else .gt

/-- Mirrors the `EntityWithStrKey` trait of `rust_extensions::sorted_vec`. -/
class EntityWithStrKey (α : Type) where
  get_key : α → List Char

export EntityWithStrKey (get_key)

/-- `insert_or_replace` of a sorted vec: replace the entry with the same key
(returning the displaced entry) or insert at the sorted position. -/
def sorted_vec_insert_or_replace {α : Type} [EntityWithStrKey α]
    (l : List α) (x : α) : List α × Option α :=
  match l with
  | [] => ([x], none)
  | y :: ys =>
    match cmp_chars (get_key y) (get_key x) with
    | .lt =>
      let r := sorted_vec_insert_or_replace ys x
      (y :: r.1, r.2)
    | .eq => (x :: ys, some y)
    | .gt => (x :: y :: ys, none)

/-- `remove` of a sorted vec: remove and return the entry with the given
key, if present. -/
def sorted_vec_remove {α : Type} [EntityWithStrKey α]
    (l : List α) (key : List Char) : List α × Option α :=
  match l with
  | [] => ([], none)
  | y :: ys =>
    match cmp_chars (get_key y) key with
    | .lt =>
      let r := sorted_vec_remove ys key
      (y :: r.1, r.2)
    | .eq => (ys, some y)
    | .gt => (y :: ys, none)

/-- `get` of a sorted vec. -/
def sorted_vec_get {α : Type} [EntityWithStrKey α]
    (l : List α) (key : List Char) : Option α :=
  match l with
  | [] => none
  | y :: ys =>
    match cmp_chars (get_key y) key with
    | .lt => sorted_vec_get ys key
    | .eq => some y
    | .gt => none

/-- `contains` of a sorted vec. -/
def sorted_vec_contains {α : Type} [EntityWithStrKey α]
    (l : List α) (key : List Char) : Bool :=
  (sorted_vec_get l key).isSome

instance : EntityWithStrKey DbRow where
  get_key := DbRow.get_row_key

instance : ExpirationIndexEntry DbRow where
  get_id_as_str := DbRow.get_row_key
  get_expiration_moment := DbRow.get_expires

/-- `DbRowsContainer` of `db_rows_container.rs` (master-node layout): the
sorted row vector plus the per-partition row-expiration index. -/
structure DbRowsContainer where
  data : List DbRow
  rows_with_expiration_index : ExpirationIndexContainer DbRow
deriving DecidableEq

namespace DbRowsContainer

/-- `DbRowsContainer::new`. -/
def new : DbRowsContainer :=
  { data := [], rows_with_expiration_index := ExpirationIndexContainer.new DbRow }

/-- `DbRowsContainer::len`. -/
def len (c : DbRowsContainer) : Nat := c.data.length

/-- `DbRowsContainer::rows_with_expiration_index_len`. -/
def rows_with_expiration_index_len (c : DbRowsContainer) : Nat :=
  c.rows_with_expiration_index.len

/-- `DbRowsContainer::get_rows_to_expire`. -/
def get_rows_to_expire (c : DbRowsContainer) (now : Int) : List DbRow :=
  c.rows_with_expiration_index.get_items_to_expire now

/-- The `binary_search_by` insertion of `get_rows_to_gc_by_max_amount`,
building a list ascending by `last_read_access`; the source inserts at the
reported position in both the `Ok` and the `Err` branch. Among equal keys a
binary search position is unspecified; this model inserts before the first
equal element (the claims evaluated use pairwise distinct values, where
every admissible position gives the same list). -/
def insert_by_last_read_access (acc : List DbRow) (db_row : DbRow) :
    List DbRow :=
  match acc with
  | [] => [db_row]
  | x :: xs =>
    if db_row.last_read_access ≤ x.last_read_access then db_row :: x :: xs
    else x :: insert_by_last_read_access xs db_row

/-- `DbRowsContainer::get_rows_to_gc_by_max_amount`: `none` when the row
count is within `max_rows_amount`; otherwise sort all rows ascending by
`last_read_access` and pop from the end until `max_rows_amount` remain,
returning the remaining (oldest-read) rows. -/
def get_rows_to_gc_by_max_amount (c : DbRowsContainer)
    (max_rows_amount : Nat) : Option (List DbRow) :=
  if c.data.length ≤ max_rows_amount then none
  else some ((c.data.foldl insert_by_last_read_access []).take max_rows_amount)

/-- `DbRowsContainer::insert`: add the new row to the expiration index
first, then insert-or-replace into the sorted vector; the displaced row is
removed from the expiration index only when `added` was `Some(true)`, i.e.
only when the new row created a fresh bucket. -/
def insert (c : DbRowsContainer) (db_row : DbRow) :
    DbRowsContainer × Option DbRow :=
  let a := c.rows_with_expiration_index.add db_row
  let d := sorted_vec_insert_or_replace c.data db_row
  let idx :=
    match a.2, d.2 with
    | some true, some removed_db_row => a.1.remove removed_db_row
    | _, _ => a.1
  ({ data := d.1, rows_with_expiration_index := idx }, d.2)

/-- `DbRowsContainer::remove`: remove from the sorted vector and, when a row
was removed, from the expiration index (at the row's current expiration
moment). -/
def remove (c : DbRowsContainer) (row_key : List Char) :
    DbRowsContainer × Option DbRow :=
  let d := sorted_vec_remove c.data row_key
  match d.2 with
  | some removed_db_row =>
    ({ data := d.1,
       rows_with_expiration_index :=
         c.rows_with_expiration_index.remove removed_db_row }, d.2)
  | none => ({ c with data := d.1 }, none)

/-- `DbRowsContainer::get`. -/
def get (c : DbRowsContainer) (row_key : List Char) : Option DbRow :=
  sorted_vec_get c.data row_key

/-- `DbRowsContainer::has_db_row`. -/
def has_db_row (c : DbRowsContainer) (row_key : List Char) : Bool :=
  sorted_vec_contains c.data row_key

end DbRowsContainer

/-- `are_expires_the_same` of `db_rows_container.rs`: both `Some` with equal
`unix_microseconds`, or both `None`. -/
def are_expires_the_same (old_expires new_expires : Option Int) : Bool :=
  match old_expires with
  | some o =>
    match new_expires with
    | some n => n = o
    | none => false
  | none =>
    match new_expires with
    | some _ => false
    | none => true

/-- The effect, on the owning sorted vector, of mutating the shared
`Arc<DbRow>` obtained from `get`: the first entry with the matching key is
replaced by the updated row value. -/
def replace_first (l : List DbRow) (key : List Char) (r : DbRow) :
    List DbRow :=
  match l with
  | [] => []
  | x :: xs =>
    if x.get_row_key = key then r :: xs else x :: replace_first xs key r

/-- `DbRowsContainer::update_expiration_time`: find the row; atomically swap
its expiration (`update_expires`, reflected in the stored row value); when
the old and new expirations compare equal return `none` with no index
change; otherwise update the expiration index (remove at the old moment, add
at the row's new moment) and return the updated row. -/
def DbRowsContainer.update_expiration_time (c : DbRowsContainer)
    (row_key : List Char) (expiration_time : Option Int) :
    DbRowsContainer × Option DbRow :=
  match c.get row_key with
  | none => (c, none)
  | some db_row =>
    let u := db_row.update_expires expiration_time
    let data := replace_first c.data row_key u.2
    if are_expires_the_same u.1 expiration_time then
      ({ c with data := data }, none)
    else
      ({ data := data,
         rows_with_expiration_index :=
           c.rows_with_expiration_index.update u.1 u.2 }, some u.2)

/-- `DbPartition` of `db_partition.rs` (master-node layout). -/
structure DbPartition where
  partition_key : List Char
  expires : Option Int
  rows : DbRowsContainer
  last_read_moment : Int
  last_write_moment : Int
  content_size : Nat
deriving DecidableEq

instance : EntityWithStrKey DbPartition where
  get_key := DbPartition.partition_key

namespace DbPartition

/-- `DbPartition::new` (the source initialises both moments to `now()`). -/
def new (partition_key : List Char) (now : Int) : DbPartition :=
  { partition_key := partition_key
    rows := DbRowsContainer.new
    last_read_moment := now
    last_write_moment := now
    content_size := 0
    expires := none }

/-- `DbPartition::get_rows_to_expire`. -/
def get_rows_to_expire (p : DbPartition) (now : Int) : List DbRow :=
  p.rows.get_rows_to_expire now

/-- `DbPartition::get_content_size`. -/
def get_content_size (p : DbPartition) : Nat := p.content_size

/-- `DbPartition::rows_count` / `get_rows_amount`. -/
def rows_count (p : DbPartition) : Nat := p.rows.len

/-- `DbPartition::is_empty`. -/
def is_empty (p : DbPartition) : Bool := p.rows.len = 0

/-- `DbPartition::insert_or_replace_row`: grow `content_size` by the new
row's raw length, insert into the rows container, then shrink `content_size`
by the displaced row's raw length when one was displaced. -/
def insert_or_replace_row (p : DbPartition) (db_row : DbRow) :
    DbPartition × Option DbRow :=
  let content_size := p.content_size + db_row.raw.length
  let r := p.rows.insert db_row
  match r.2 with
  | some removed_item =>
    ({ p with rows := r.1, content_size := content_size - removed_item.raw.length },
     r.2)
  | none => ({ p with rows := r.1, content_size := content_size }, none)

/-- `DbPartition::insert_row`: refuse (returning `false`, partition
untouched) when a row with that key exists, else `insert_or_replace_row`. -/
def insert_row (p : DbPartition) (db_row : DbRow) : DbPartition × Bool :=
  if p.rows.has_db_row db_row.get_row_key then (p, false)
  else ((p.insert_or_replace_row db_row).1, true)

/-- `DbPartition::insert_or_replace_rows_bulk`: apply the single-row logic
to each row, collecting the displaced rows. -/
def insert_or_replace_rows_bulk (p : DbPartition) (db_rows : List DbRow) :
    DbPartition × List DbRow :=
  db_rows.foldl
    (fun acc db_row =>
      let r := acc.1.insert_or_replace_row db_row
      (r.1, match r.2 with
            | some removed_item => acc.2 ++ [removed_item]
            | none => acc.2))
    (p, [])

/-- `DbPartition::remove_row`: remove from the rows container; when a row
was removed, shrink `content_size` by its raw length. -/
def remove_row (p : DbPartition) (row_key : List Char) :
    DbPartition × Option DbRow :=
  let r := p.rows.remove row_key
  match r.2 with
  | some removed_item =>
    ({ p with rows := r.1,
              content_size := p.content_size - removed_item.raw.length }, r.2)
  | none => ({ p with rows := r.1 }, none)

/-- `DbPartition::remove_rows_bulk`: remove each key, collecting removed
rows (`LazyVec`: the result is `none` when nothing was removed). -/
def remove_rows_bulk (p : DbPartition) (row_keys : List (List Char)) :
    DbPartition × Option (List DbRow) :=
  let r := row_keys.foldl
    (fun acc row_key =>
      let q := acc.1.remove_row row_key
      (q.1, match q.2 with
            | some removed_item => acc.2 ++ [removed_item]
            | none => acc.2))
    (p, [])
  (r.1, if r.2.isEmpty then none else some r.2)

end DbPartition

/-- The partition-level mutations the invariant claims quantify over.
`update_expiration_time` acts on the partition's (public) rows container as
the callers of the source do. -/
inductive DbPartitionOp where
  | insert_row (db_row : DbRow)
  | insert_or_replace_row (db_row : DbRow)
  | insert_or_replace_rows_bulk (db_rows : List DbRow)
  | remove_row (row_key : List Char)
  | remove_rows_bulk (row_keys : List (List Char))
  | update_expiration_time (row_key : List Char) (expiration_time : Option Int)

/-- Apply one mutation to a partition (return values dropped). -/
def DbPartition.apply_op (p : DbPartition) : DbPartitionOp → DbPartition
  | .insert_row db_row => (p.insert_row db_row).1
  | .insert_or_replace_row db_row => (p.insert_or_replace_row db_row).1
  | .insert_or_replace_rows_bulk db_rows =>
    (p.insert_or_replace_rows_bulk db_rows).1
  | .remove_row row_key => (p.remove_row row_key).1
  | .remove_rows_bulk row_keys => (p.remove_rows_bulk row_keys).1
  | .update_expiration_time row_key expiration_time =>
    { p with rows := (p.rows.update_expiration_time row_key expiration_time).1 }

/-- Apply a sequence of mutations in order. -/
def DbPartition.apply_ops (p : DbPartition) (ops : List DbPartitionOp) :
    DbPartition :=
  ops.foldl DbPartition.apply_op p

/-- `DbPartitionExpirationIndexOwned`: the owned shape
(`partition_key`, `expires`) stored in the table's partition-expiration
index (`DbPartition::to_owned` in `db_partition.rs`). -/
structure DbPartitionExpirationIndexOwned where
  partition_key : List Char
  expires : Option Int
deriving DecidableEq

instance : ExpirationIndexEntry DbPartitionExpirationIndexOwned where
  get_id_as_str i := i.partition_key
  get_expiration_moment i := i.expires

/-- `DbPartition::get_expiration_index_owned` / the `ExpirationIndex`
implementation for `DbPartition` (id `partition_key`, moment `expires`). -/
def DbPartition.get_expiration_index_owned (p : DbPartition) :
    DbPartitionExpirationIndexOwned :=
  { partition_key := p.partition_key, expires := p.expires }

/-- `PartitionToGc` of `db_partitions_container.rs`. -/
structure PartitionToGc where
  partition_key : List Char
  last_read_moment : Int
deriving DecidableEq

/-- `DbPartitionsContainer` of `db_partitions_container.rs` (master-node
layout): the sorted partition vector plus the partition-expiration index. -/
structure DbPartitionsContainer where
  partitions : List DbPartition
  partitions_to_expire_index :
    ExpirationIndexContainer DbPartitionExpirationIndexOwned
deriving DecidableEq

namespace DbPartitionsContainer

/-- `DbPartitionsContainer::new`. -/
def new : DbPartitionsContainer :=
  { partitions := []
    partitions_to_expire_index :=
      ExpirationIndexContainer.new DbPartitionExpirationIndexOwned }

/-- `DbPartitionsContainer::len`. -/
def len (c : DbPartitionsContainer) : Nat := c.partitions.length

/-- `DbPartitionsContainer::get_partitions_to_expire`: delegates to the
partition-expiration index (transforming each item to its key). -/
def get_partitions_to_expire (c : DbPartitionsContainer) (now : Int) :
    List (List Char) :=
  (c.partitions_to_expire_index.get_items_to_expire now).map
    (fun itm => itm.partition_key)

/-- `DbPartitionsContainer::add_partition_if_not_exists`: return the
container (with a fresh empty partition inserted when the key was absent —
creation does not touch the partition-expiration index) together with the
key. -/
def add_partition_if_not_exists (c : DbPartitionsContainer)
    (partition_key : List Char) (now : Int) : DbPartitionsContainer :=
  if sorted_vec_contains c.partitions partition_key then c
  else
    { c with partitions :=
        (sorted_vec_insert_or_replace c.partitions
          (DbPartition.new partition_key now)).1 }

/-- `DbPartitionsContainer::get`. -/
def get (c : DbPartitionsContainer) (partition_key : List Char) :
    Option DbPartition :=
  sorted_vec_get c.partitions partition_key

/-- `DbPartitionsContainer::has_partition`. -/
def has_partition (c : DbPartitionsContainer) (partition_key : List Char) :
    Bool :=
  sorted_vec_contains c.partitions partition_key

/-- `DbPartitionsContainer::insert`: add the incoming partition to the
expiration index, insert-or-replace it in the sorted vector, then remove the
displaced partition (if any) from the expiration index. -/
def insert (c : DbPartitionsContainer) (db_partition : DbPartition) :
    DbPartitionsContainer :=
  let idx :=
    c.partitions_to_expire_index.add db_partition.get_expiration_index_owned
  let d := sorted_vec_insert_or_replace c.partitions db_partition
  match d.2 with
  | some removed_partition =>
    { partitions := d.1
      partitions_to_expire_index :=
        idx.1.remove removed_partition.get_expiration_index_owned }
  | none => { partitions := d.1, partitions_to_expire_index := idx.1 }

/-- `DbPartitionsContainer::remove`. -/
def remove (c : DbPartitionsContainer) (partition_key : List Char) :
    DbPartitionsContainer × Option DbPartition :=
  let d := sorted_vec_remove c.partitions partition_key
  match d.2 with
  | some removed_partition =>
    ({ partitions := d.1
       partitions_to_expire_index :=
         c.partitions_to_expire_index.remove
           removed_partition.get_expiration_index_owned }, d.2)
  | none => ({ c with partitions := d.1 }, none)

/-- The effect of mutating, through the `&mut` reference, the partition a
table operation obtained by key: the first entry with the matching key is
replaced. -/
def modify_partition (c : DbPartitionsContainer) (partition_key : List Char)
    (p : DbPartition) : DbPartitionsContainer :=
  { c with partitions :=
      match sorted_vec_get c.partitions partition_key with
      | some _ =>
        c.partitions.map
          (fun x => if x.partition_key = partition_key then p else x)
      | none => c.partitions }

/-- The `binary_search_by` insertion of `get_partitions_to_gc_by_max_amount`,
ascending by `last_read_moment`: the `Ok` branch of the source does nothing,
so a partition whose `last_read_moment` equals one already collected is
skipped. -/
def insert_partition_to_gc (acc : List PartitionToGc) (pk : List Char)
    (last_read_moment : Int) : List PartitionToGc :=
  match acc with
  | [] => [⟨pk, last_read_moment⟩]
  | x :: xs =>
    if x.last_read_moment = last_read_moment then x :: xs
    else if x.last_read_moment < last_read_moment then
      x :: insert_partition_to_gc xs pk last_read_moment
    else ⟨pk, last_read_moment⟩ :: x :: xs

/-- `DbPartitionsContainer::get_partitions_to_gc_by_max_amount`: `none` when
the partition count is within `max_partitions_amount`; otherwise collect the
partitions ascending by `last_read_moment` (skipping any whose moment ties a
collected one) and pop from the end until `max_partitions_amount` remain,
returning the remaining (oldest-read) entries. -/
def get_partitions_to_gc_by_max_amount (c : DbPartitionsContainer)
    (max_partitions_amount : Nat) : Option (List PartitionToGc) :=
  if c.partitions.length ≤ max_partitions_amount then none
  else
    some (((c.partitions.foldl
      (fun acc p => insert_partition_to_gc acc p.partition_key
        p.last_read_moment) []).take max_partitions_amount))

end DbPartitionsContainer

/-- Modelled from the spec: `DbTableAttributes` (its source file is not
among the provided sources) — the master-node table attributes consulted by
the GC planner. -/
structure DbTableAttributes where
  max_partitions_amount : Option Nat
  max_rows_per_partition_amount : Option Nat
deriving DecidableEq

/-- Modelled from the spec: `AvgSize` — the average-row-size estimator that
"observes every inserted row" (exact update law internal); modelled as a
running sum and count. -/
structure AvgSize where
  sum : Nat
  count : Nat
deriving DecidableEq

/-- Modelled from the spec: the estimator observes one inserted row. -/
def AvgSize.add (a : AvgSize) (db_row : DbRow) : AvgSize :=
  { sum := a.sum + db_row.raw.length, count := a.count + 1 }

/-- `DbTableInner` of `db_table_inner.rs` (master-node layout). -/
structure DbTableInner where
  name : List Char
  partitions : DbPartitionsContainer
  avg_size : AvgSize
  last_write_moment : Int
  attributes : DbTableAttributes
deriving DecidableEq

namespace DbTableInner

/-- `DbTableInner::insert_or_replace_row`: observe the row size, get or
create the partition, insert-or-replace the row in it, and when the call is
annotated with `set_last_write_moment = Some(m)` set both the table's and
the partition's `last_write_moment` to `m`. `now` is the ambient clock used
by `DbPartition::new` for a freshly created partition. -/
def insert_or_replace_row (t : DbTableInner) (db_row : DbRow)
    (set_last_write_moment : Option Int) (now : Int) :
    DbTableInner × Option DbRow :=
  let t1 := { t with avg_size := t.avg_size.add db_row }
  let pk := db_row.get_partition_key
  let parts := t1.partitions.add_partition_if_not_exists pk now
  match parts.get pk with
  | none => (t1, none)
  | some db_partition =>
    let r := db_partition.insert_or_replace_row db_row
    match set_last_write_moment with
    | some m =>
      ({ t1 with
          partitions := parts.modify_partition pk
            { r.1 with last_write_moment := m }
          last_write_moment := m }, r.2)
    | none => ({ t1 with partitions := parts.modify_partition pk r.1 }, r.2)

/-- `DbTableInner::insert_row`: as `insert_or_replace_row` but refusing
duplicates; on success with `set_last_write_moment = Some(m)` the source
sets the table's `last_write_moment` to `DateTimeAsMicroseconds::now()` —
the ambient clock `now`, not `m` — and the partition's to `m`. -/
def insert_row (t : DbTableInner) (db_row : DbRow)
    (set_last_write_moment : Option Int) (now : Int) :
    DbTableInner × Bool :=
  let t1 := { t with avg_size := t.avg_size.add db_row }
  let pk := db_row.get_partition_key
  let parts := t1.partitions.add_partition_if_not_exists pk now
  match parts.get pk with
  | none => (t1, false)
  | some db_partition =>
    let r := db_partition.insert_row db_row
    if r.2 then
      match set_last_write_moment with
      | some m =>
        ({ t1 with
            partitions := parts.modify_partition pk
              { r.1 with last_write_moment := m }
            last_write_moment := now }, true)
      | none => ({ t1 with partitions := parts.modify_partition pk r.1 }, true)
    else ({ t1 with partitions := parts.modify_partition pk r.1 }, false)

/-- `DbTableInner::bulk_insert_or_replace`: observe every row, get or create
the partition, bulk insert-or-replace, and when annotated with `Some(m)` set
both the table's and the partition's `last_write_moment` to `m`. -/
def bulk_insert_or_replace (t : DbTableInner) (partition_key : List Char)
    (db_rows : List DbRow) (set_last_write_moment : Option Int) (now : Int) :
    DbTableInner × List DbRow :=
  let t1 := { t with avg_size := db_rows.foldl AvgSize.add t.avg_size }
  let parts := t1.partitions.add_partition_if_not_exists partition_key now
  match parts.get partition_key with
  | none => (t1, [])
  | some db_partition =>
    let r := db_partition.insert_or_replace_rows_bulk db_rows
    match set_last_write_moment with
    | some m =>
      ({ t1 with
          partitions := parts.modify_partition partition_key
            { r.1 with last_write_moment := m }
          last_write_moment := m }, r.2)
    | none =>
      ({ t1 with partitions := parts.modify_partition partition_key r.1 }, r.2)

/-- `DbTableInner::remove_row`: find the partition, remove the row (`none`
when either is missing); when annotated with `Some(m)` the source sets the
table's `last_write_moment` to `DateTimeAsMicroseconds::now()` — the ambient
clock `now`, not `m` — and the partition's to `m`; finally drop the
partition when requested and it became empty. -/
def remove_row (t : DbTableInner) (partition_key row_key : List Char)
    (delete_empty_partition : Bool) (set_last_write_moment : Option Int)
    (now : Int) : DbTableInner × Option DbRow :=
  match t.partitions.get partition_key with
  | none => (t, none)
  | some db_partition =>
    let r := db_partition.remove_row row_key
    match r.2 with
    | none => (t, none)
    | some removed_row =>
      let t1 :=
        match set_last_write_moment with
        | some m =>
          { t with
              partitions := t.partitions.modify_partition partition_key
                { r.1 with last_write_moment := m }
              last_write_moment := now }
        | none =>
          { t with
              partitions := t.partitions.modify_partition partition_key r.1 }
      let t2 :=
        if delete_empty_partition && r.1.is_empty then
          { t1 with partitions := (t1.partitions.remove partition_key).1 }
        else t1
      (t2, some removed_row)

/-- `DbTableInner::bulk_remove_rows`: find the partition, bulk-remove the
keys (`none` when the partition is missing or nothing was removed); when
annotated with `Some(m)` the source sets the table's `last_write_moment` to
`DateTimeAsMicroseconds::now()` — the ambient clock `now`, not `m` — and the
partition's to `m`; finally drop the partition when requested and empty. -/
def bulk_remove_rows (t : DbTableInner) (partition_key : List Char)
    (row_keys : List (List Char)) (delete_empty_partition : Bool)
    (set_last_write_moment : Option Int) (now : Int) :
    DbTableInner × Option (List DbRow) :=
  match t.partitions.get partition_key with
  | none => (t, none)
  | some db_partition =>
    let r := db_partition.remove_rows_bulk row_keys
    match r.2 with
    | none => (t, none)
    | some removed_rows =>
      let t1 :=
        match set_last_write_moment with
        | some m =>
          { t with
              partitions := t.partitions.modify_partition partition_key
                { r.1 with last_write_moment := m }
              last_write_moment := now }
        | none =>
          { t with
              partitions := t.partitions.modify_partition partition_key r.1 }
      let t2 :=
        if delete_empty_partition && r.1.is_empty then
          { t1 with partitions := (t1.partitions.remove partition_key).1 }
        else t1
      (t2, some removed_rows)

end DbTableInner

/-- Modelled from the spec: `DataToGc` (its source file is not among the
provided sources) — the eviction plan: partitions to drop plus rows to drop
per surviving partition. -/
structure DataToGc where
  partitions_to_expire : List (List Char)
  rows_to_expire : List (List Char × List DbRow)
deriving DecidableEq

namespace DataToGc

/-- Modelled from the spec: the empty plan. -/
def new : DataToGc := { partitions_to_expire := [], rows_to_expire := [] }

/-- Modelled from the spec: enqueue a partition for a full drop. -/
def add_partition_to_expire (d : DataToGc) (partition_key : List Char) :
    DataToGc :=
  { d with partitions_to_expire := d.partitions_to_expire ++ [partition_key] }

/-- Modelled from the spec: is the partition already enqueued for a full
drop? -/
def has_partition_to_gc (d : DataToGc) (partition_key : List Char) : Bool :=
  d.partitions_to_expire.any (fun pk => pk == partition_key)

/-- Modelled from the spec: enqueue rows of a partition for removal. -/
def add_rows_to_expire (d : DataToGc) (partition_key : List Char)
    (rows : List DbRow) : DataToGc :=
  { d with rows_to_expire := d.rows_to_expire ++ [(partition_key, rows)] }

end DataToGc

/-- `DbTableInner::get_data_to_gc` of `db_table_master_node.rs`: enqueue the
over-limit partitions (when `max_partitions_amount` is set), the expired
partitions, and — for every partition not already enqueued for a full drop —
the expired rows and the over-limit rows (when
`max_rows_per_partition_amount` is set). -/
def DbTableInner.get_data_to_gc (t : DbTableInner) (now : Int) : DataToGc :=
  let r0 := DataToGc.new
  let r1 :=
    match t.attributes.max_partitions_amount with
    | some max_partitions_amount =>
      match t.partitions.get_partitions_to_gc_by_max_amount
          max_partitions_amount with
      | some partitions_to_expire =>
        partitions_to_expire.foldl
          (fun acc item => acc.add_partition_to_expire item.partition_key) r0
      | none => r0
    | none => r0
  let r2 := (t.partitions.get_partitions_to_expire now).foldl
    (fun acc partition_key => acc.add_partition_to_expire partition_key) r1
  t.partitions.partitions.foldl
    (fun acc db_partition =>
      if acc.has_partition_to_gc db_partition.partition_key then acc
      else
        let rows_to_expire := db_partition.get_rows_to_expire now
        let acc1 :=
          if rows_to_expire.length > 0 then
            acc.add_rows_to_expire db_partition.partition_key rows_to_expire
          else acc
        match t.attributes.max_rows_per_partition_amount with
        | some max_rows_per_partition =>
          match db_partition.rows.get_rows_to_gc_by_max_amount
              max_rows_per_partition with
          | some rows_to_gc =>
            acc1.add_rows_to_expire db_partition.partition_key rows_to_gc
          | none => acc1
        | none => acc1)
    r2

/-! Specification predicates: the invariants the claims assert, stated over
the embedded state. -/

/-- The characters `E`, `x`, `p`, `i`, `r`, `e`, `s` of the substring the
spec's invariant E1 speaks about. -/
def expires_pattern : List Char := "Expires".toList

/-- The substring `Expires` occurs in `s` at position `q`. -/
def occurs_expires_at (s : List Char) (q : Nat) : Prop :=
  (s.drop q).take 7 = expires_pattern

instance (s : List Char) (q : Nat) : Decidable (occurs_expires_at s q) := by
  unfold occurs_expires_at; infer_instance

/-- The substring `Expires` occurs somewhere in `s`. -/
def contains_expires (s : List Char) : Prop :=
  ∃ q ∈ List.range s.length, occurs_expires_at s q

instance (s : List Char) : Decidable (contains_expires s) := by
  unfold contains_expires; infer_instance

/-- `o` is not a character of the word `Expires`. -/
def option_char_not_in_pattern : Option Char → Prop
  | none => True
  | some ch => ch ∉ expires_pattern

instance : (o : Option Char) → Decidable (option_char_not_in_pattern o)
  | none => isTrue trivial
  | some _ => inferInstanceAs (Decidable (_ ∉ _))

/-- Well-formedness of a row as produced by the entity parser: the recorded
`expires` position delimits the unique occurrence of the `Expires` key/value
pair inside `raw` (when the position is `none`, `raw` does not contain the
substring at all), and the character after the spliced-out region — at
`value.endPos`, and after a trailing comma when one is found — is JSON
punctuation, not a letter of `Expires`. -/
def row_well_formed (r : DbRow) : Prop :=
  match r.expires with
  | none => ∀ q, q < r.raw.length → ¬ occurs_expires_at r.raw q
  | some pos =>
    0 < pos.key.start ∧ pos.key.start ≤ pos.value.endPos ∧
    pos.value.endPos ≤ r.raw.length ∧
    (∀ q, q < r.raw.length → occurs_expires_at r.raw q →
      pos.key.start ≤ q ∧ q + 7 ≤ pos.value.endPos) ∧
    option_char_not_in_pattern (r.raw.get? pos.value.endPos) ∧
    option_char_not_in_pattern
      ((find_json_separator_after r.raw pos.value.endPos).bind
        (fun j => r.raw.get? j))

instance (r : DbRow) : Decidable (row_well_formed r) := by
  unfold row_well_formed
  cases r.expires <;> infer_instance

/-- Sum of `len(row.raw)` over a row list. -/
def rows_raw_size (l : List DbRow) : Nat :=
  (l.map (fun r => r.raw.length)).sum

/-- Invariant P1 of the spec: `content_size` equals the sum of `len(row.raw)`
over the partition's rows. -/
def content_size_invariant (p : DbPartition) : Prop :=
  p.content_size = rows_raw_size p.rows.data

/-- Number of index entries carrying id `id` inside buckets at moment `m`. -/
def bucket_id_count (idx : List (ExpirationIndexItem DbRow))
    (id : List Char) (m : Int) : Nat :=
  (((idx.filter (fun b => b.moment == m)).map
    (fun b => (b.items.filter (fun x => x.get_row_key == id)).length))).sum

/-- Id `id` appears in some bucket at a moment other than `m`. -/
def id_in_other_bucket (idx : List (ExpirationIndexItem DbRow))
    (id : List Char) (m : Int) : Prop :=
  ∃ b ∈ idx, b.moment ≠ m ∧ ∃ x ∈ b.items, x.get_row_key = id

instance (idx : List (ExpirationIndexItem DbRow)) (id : List Char) (m : Int) :
    Decidable (id_in_other_bucket idx id m) := by
  unfold id_in_other_bucket; infer_instance

/-- Invariant I1 of the spec, as claim C1 states it: every row of the
partition with a non-zero `expires_value` appears exactly once (by its
row-key id) in the row-expiration index, in the bucket at moment
`expires_value`, and its id appears in no other bucket. -/
def row_expiration_index_invariant (p : DbPartition) : Prop :=
  ∀ r ∈ p.rows.data, r.expires_value ≠ 0 →
    bucket_id_count p.rows.rows_with_expiration_index.index
      r.get_row_key r.expires_value = 1 ∧
    ¬ id_in_other_bucket p.rows.rows_with_expiration_index.index
      r.get_row_key r.expires_value

instance (p : DbPartition) : Decidable (row_expiration_index_invariant p) := by
  unfold row_expiration_index_invariant; infer_instance

/-! Concrete inputs used by the evaluation theorems, counterexamples and
witnesses. -/

/-- A document with an `Expires` field:
`{"PartitionKey":"test","RowKey":"test","Expires":"2019-01-01T00:00:00"}`. -/
def sample_raw_expires : List Char :=
  "\x7b\"PartitionKey\":\"test\",\"RowKey\":\"test\",\"Expires\":\"2019-01-01T00:00:00\"\x7d".toList

/-- The row parsed from `sample_raw_expires`: the `Expires` key/value pair
spans bytes 39–69, `expires_value` is 2019-01-01T00:00:00 UTC in
unix microseconds. -/
def sample_row_expires : DbRow :=
  { partition_key := ⟨17, 21⟩
    row_key := ⟨33, 37⟩
    raw := sample_raw_expires
    expires_value := 1546300800000000
    expires := some ⟨⟨39, 48⟩, ⟨50, 70⟩⟩
    time_stamp := ⟨0, 0⟩
    last_read_access := 0 }

/-- A document with a `TimeStamp` field:
`{"PartitionKey":"test","RowKey":"test","TimeStamp":"2019-01-01T00:00:00"}`. -/
def sample_raw_time_stamp : List Char :=
  "\x7b\"PartitionKey\":\"test\",\"RowKey\":\"test\",\"TimeStamp\":\"2019-01-01T00:00:00\"\x7d".toList

/-- The row parsed from `sample_raw_time_stamp`: the `TimeStamp` value spans
bytes 52–71. -/
def sample_row_time_stamp : DbRow :=
  { partition_key := ⟨17, 21⟩
    row_key := ⟨33, 37⟩
    raw := sample_raw_time_stamp
    expires_value := 0
    expires := none
    time_stamp := ⟨52, 71⟩
    last_read_access := 0 }

/-- A minimal row: key `k`, one-character raw buffer equal to the key,
expiring at `e` (`0` = no expiration), last read at `lr`. -/
def tiny_row (k : Char) (e : Int) (lr : Int) : DbRow :=
  { partition_key := ⟨0, 1⟩
    row_key := ⟨0, 1⟩
    raw := [k]
    expires_value := e
    expires := none
    time_stamp := ⟨0, 1⟩
    last_read_access := lr }

/-- C1's failing input: into a fresh partition, insert row `a` expiring at
100, row `b` expiring at 200, then replace `b` with a row expiring at 100. -/
def c1_partition : DbPartition :=
  DbPartition.apply_ops (DbPartition.new ['p'] 0)
    [.insert_or_replace_row (tiny_row 'a' 100 0),
     .insert_or_replace_row (tiny_row 'b' 200 0),
     .insert_or_replace_row (tiny_row 'b' 100 0)]

/-- C2's failing input: add two items with distinct ids at the same
moment 1. -/
def c2_container : ExpirationIndexContainer TestExpirationItem :=
  (((ExpirationIndexContainer.new TestExpirationItem).add
    ⟨['a'], some 1⟩).1.add ⟨['b'], some 1⟩).1

/-- C4's failing input: three partitions with pairwise distinct
`last_read_moment` 1, 2, 3. -/
def c4_container : DbPartitionsContainer :=
  { partitions :=
      [DbPartition.new ['a'] 1, DbPartition.new ['b'] 2,
       DbPartition.new ['c'] 3]
    partitions_to_expire_index :=
      ExpirationIndexContainer.new DbPartitionExpirationIndexOwned }

/-- C5's failing input: one partition `t` with four never-expiring rows
whose `last_read_access` are 1, 2, 3, 4; the table caps rows per partition
at 3. -/
def c5_table : DbTableInner :=
  { name := ['t']
    partitions :=
      { partitions :=
          [{ partition_key := ['t']
             expires := none
             rows :=
               { data :=
                   [tiny_row 'a' 0 1, tiny_row 'b' 0 2, tiny_row 'c' 0 3,
                    tiny_row 'd' 0 4]
                 rows_with_expiration_index :=
                   ExpirationIndexContainer.new DbRow }
             last_read_moment := 0
             last_write_moment := 0
             content_size := 4 }]
        partitions_to_expire_index :=
          ExpirationIndexContainer.new DbPartitionExpirationIndexOwned }
    avg_size := ⟨0, 0⟩
    last_write_moment := 0
    attributes := { max_partitions_amount := none
                    max_rows_per_partition_amount := some 3 } }

/-- C7's failing input: a rows container holding one row with key `r` and no
expiration. -/
def c7_container : DbRowsContainer :=
  { data := [tiny_row 'r' 0 0]
    rows_with_expiration_index := ExpirationIndexContainer.new DbRow }

/-- A minimal row with partition key `p` and row key `r` (raw `pr`). -/
def sample_row_pr : DbRow :=
  { partition_key := ⟨0, 1⟩
    row_key := ⟨1, 2⟩
    raw := ['p', 'r']
    expires_value := 0
    expires := none
    time_stamp := ⟨0, 1⟩
    last_read_access := 0 }

/-- A minimal row with partition key `p` and row key `s` (raw `ps`). -/
def sample_row_ps : DbRow :=
  { partition_key := ⟨0, 1⟩
    row_key := ⟨1, 2⟩
    raw := ['p', 's']
    expires_value := 0
    expires := none
    time_stamp := ⟨0, 1⟩
    last_read_access := 0 }

/-- C9's failing input: a table holding partition `p` with the single row
`r`. -/
def c9_table : DbTableInner :=
  { name := ['t']
    partitions :=
      { partitions :=
          [{ partition_key := ['p']
             expires := none
             rows :=
               { data := [sample_row_pr]
                 rows_with_expiration_index :=
                   ExpirationIndexContainer.new DbRow }
             last_read_moment := 0
             last_write_moment := 0
             content_size := 2 }]
        partitions_to_expire_index :=
          ExpirationIndexContainer.new DbPartitionExpirationIndexOwned }
    avg_size := ⟨0, 0⟩
    last_write_moment := 0
    attributes := { max_partitions_amount := none
                    max_rows_per_partition_amount := none } }

/-! Theorems. -/

/-- C1: the row-expiration index invariant I1 is NOT preserved by
`insert_or_replace_row`. After inserting row `a` (expires 100) and row `b`
(expires 200), replacing `b` by a row expiring at 100 lands the new row in
the existing bucket at 100, so `add` reports no fresh bucket and the source
skips removing the displaced row from the index: id `b` is left behind in
the bucket at 200 while the partition's row `b` expires at 100, violating
"appears exactly once … and no id appears in any other bucket". -/
theorem C1_row_expiration_index_invariant_fails :
    ¬ row_expiration_index_invariant c1_partition ∧
    (sorted_vec_get c1_partition.rows.data ['b']).map DbRow.expires_value =
      some 100 ∧
    bucket_id_count c1_partition.rows.rows_with_expiration_index.index
      ['b'] 200 = 1 ∧
    bucket_id_count c1_partition.rows.rows_with_expiration_index.index
      ['b'] 100 = 1 := by
  decide

/-- C2: `len()` (the `amount` counter) does NOT equal the total number of
items across buckets. `add` of an item whose moment matches an existing
bucket appends the item but computes `added = false` and leaves `amount`
untouched, so after adding `a@1` and `b@1` the container holds 2 items while
`len()` is 1; and `clear()` clears only the bucket vector, so `len()` still
returns 1 over an empty index. -/
theorem C2_expiration_index_len_mismatch :
    c2_container.len = 1 ∧
    c2_container.total_items = 2 ∧
    c2_container.clear.len = 1 ∧
    c2_container.clear.total_items = 0 := by
  decide

/-- C4: `get_partitions_to_gc_by_max_amount(max)` does NOT return
`count − max` partitions. With 3 partitions (last-read moments 1, 2, 3) and
`max = 1` it returns the single oldest-read partition — the source keeps the
first `max` entries of the ascending-by-last-read list — while the claim
requires `3 − 1 = 2` partitions so that the most-recently-read `max` remain. -/
theorem C4_partitions_gc_count_mismatch :
    c4_container.len = 3 ∧
    c4_container.get_partitions_to_gc_by_max_amount 1 = some [⟨['a'], 1⟩] ∧
    ¬ (1 : Nat) = 3 - 1 := by
  decide

/-- C5: the GC planner does NOT enqueue `count − max` rows. For a partition
with 4 rows (last-read 1, 2, 3, 4) and `max_rows_per_partition_amount = 3`,
`get_data_to_gc` enqueues the 3 oldest-read rows — the source keeps the
first `max` entries of the ascending-by-last-read list — while the claim
requires exactly `4 − 3 = 1` row. -/
theorem C5_rows_gc_count_mismatch :
    c5_table.attributes.max_rows_per_partition_amount = some 3 ∧
    (c5_table.partitions.get ['t']).map DbPartition.rows_count = some 4 ∧
    (c5_table.get_data_to_gc 0).rows_to_expire =
      [(['t'], [tiny_row 'a' 0 1, tiny_row 'b' 0 2, tiny_row 'c' 0 3])] := by
  decide

/-- C7 counterexample: the source compares expirations with
`are_expires_the_same`, under which `Some(0)` is NOT equal to `None`. On a
row whose current expiration is `None` (stored 0), requesting
`Some(0)` — equal under the claim's "comparing by unix_microseconds, None
meaning zero" — returns `Some(row)` rather than the claimed `None` (the
state is nevertheless unchanged). -/
theorem C7_update_expiration_time_some_zero_counterexample :
    (tiny_row 'r' 0 0).get_expires = none ∧
    (c7_container.update_expiration_time ['r'] (some 0)).2 =
      some (tiny_row 'r' 0 0) ∧
    (c7_container.update_expiration_time ['r'] (some 0)).1 = c7_container := by
  decide

/-- C8: `get_time_stamp` does NOT return the slice designated by the
`time_stamp` offsets: its body reads the `row_key` position, so on a row
whose `TimeStamp` value (bytes 52–71, `2019-01-01T00:00:00`) differs from
its `RowKey` value (`test`) it returns `test`, coinciding with
`get_row_key`. -/
theorem C8_get_time_stamp_returns_row_key :
    sample_row_time_stamp.get_time_stamp = "test".toList ∧
    sample_row_time_stamp.time_stamp.get_str_value sample_row_time_stamp.raw =
      "2019-01-01T00:00:00".toList ∧
    sample_row_time_stamp.get_time_stamp = sample_row_time_stamp.get_row_key := by
  decide

/-- C9 counterexample: `remove_row` annotated with
`set_last_write_moment = Some(5)` under ambient clock 7 sets the TABLE's
`last_write_moment` to `DateTimeAsMicroseconds::now()` = 7, not to the
annotated 5 (the partition does receive 5), so the claim "both … are set to
the annotated moment m" fails. -/
theorem C9_remove_row_table_moment_counterexample :
    (c9_table.remove_row ['p'] ['r'] false (some 5) 7).1.last_write_moment = 7 ∧
    ((c9_table.remove_row ['p'] ['r'] false (some 5) 7).1.partitions.get
      ['p']).map DbPartition.last_write_moment = some 5 ∧
    ¬ (7 : Int) = 5 := by
  decide

/-! Helper lemmas about the sorted containers. -/

theorem cmp_chars_refl (a : List Char) : cmp_chars a a = .eq := by
  induction a with
  | nil => rfl
  | cons x xs ih => simp [cmp_chars, ih]

theorem cmp_chars_eq {a b : List Char} (h : cmp_chars a b = .eq) : a = b := by
  induction a generalizing b with
  | nil =>
    cases b with
    | nil => rfl
    | cons y ys => simp [cmp_chars] at h
  | cons x xs ih =>
    cases b with
    | nil => simp [cmp_chars] at h
    | cons y ys =>
      by_cases hxy : x = y
      · subst hxy
        simp only [cmp_chars, if_pos rfl] at h
        rw [ih h]
      · simp only [cmp_chars, if_neg hxy] at h
        by_cases hlt : x.toNat < y.toNat
        · rw [if_pos hlt] at h; cases h
        · rw [if_neg hlt] at h; cases h

theorem rows_raw_size_nil : rows_raw_size [] = 0 := rfl

theorem rows_raw_size_cons (r : DbRow) (l : List DbRow) :
    rows_raw_size (r :: l) = r.raw.length + rows_raw_size l := by
  simp [rows_raw_size]

theorem sv_insert_size (l : List DbRow) (r : DbRow) :
    rows_raw_size (sorted_vec_insert_or_replace l r).1 +
      ((sorted_vec_insert_or_replace l r).2.elim 0 (fun d => d.raw.length)) =
    rows_raw_size l + r.raw.length := by
  induction l with
  | nil => simp [sorted_vec_insert_or_replace, rows_raw_size]
  | cons y ys ih =>
    unfold sorted_vec_insert_or_replace
    cases hc : cmp_chars (get_key y) (get_key r) with
    | lt => simp only [rows_raw_size_cons]; omega
    | eq => simp only [rows_raw_size_cons, Option.elim]; omega
    | gt => simp only [rows_raw_size_cons, Option.elim]; omega

theorem sv_remove_size (l : List DbRow) (k : List Char) :
    rows_raw_size (sorted_vec_remove l k).1 +
      ((sorted_vec_remove l k).2.elim 0 (fun d => d.raw.length)) =
    rows_raw_size l := by
  induction l with
  | nil => simp [sorted_vec_remove, rows_raw_size]
  | cons y ys ih =>
    unfold sorted_vec_remove
    cases hc : cmp_chars (get_key y) k with
    | lt => simp only [rows_raw_size_cons]; omega
    | eq => simp only [rows_raw_size_cons, Option.elim]; omega
    | gt => simp only [rows_raw_size_cons, Option.elim]; omega

theorem rows_insert_data (c : DbRowsContainer) (r : DbRow) :
    (c.insert r).1.data = (sorted_vec_insert_or_replace c.data r).1 := rfl

theorem rows_insert_snd (c : DbRowsContainer) (r : DbRow) :
    (c.insert r).2 = (sorted_vec_insert_or_replace c.data r).2 := rfl

theorem rows_remove_data (c : DbRowsContainer) (k : List Char) :
    (c.remove k).1.data = (sorted_vec_remove c.data k).1 := by
  unfold DbRowsContainer.remove
  cases h : (sorted_vec_remove c.data k).2 <;> simp [h]

theorem rows_remove_snd (c : DbRowsContainer) (k : List Char) :
    (c.remove k).2 = (sorted_vec_remove c.data k).2 := by
  unfold DbRowsContainer.remove
  cases h : (sorted_vec_remove c.data k).2 <;> simp [h]

/-- `sorted_vec_get` only returns an entry whose key is the sought one. -/
theorem sorted_vec_get_key {α : Type} [EntityWithStrKey α] {l : List α}
    {k : List Char} {x : α} (h : sorted_vec_get l k = some x) :
    get_key x = k := by
  induction l with
  | nil => simp [sorted_vec_get] at h
  | cons y ys ih =>
    unfold sorted_vec_get at h
    cases hc : cmp_chars (get_key y) k with
    | lt => rw [hc] at h; exact ih h
    | eq => rw [hc] at h; cases h; exact cmp_chars_eq hc
    | gt => rw [hc] at h; cases h

/-- Replacing the entry `sorted_vec_get` found by itself is a no-op. -/
theorem replace_first_self {l : List DbRow} {k : List Char} {x : DbRow}
    (h : sorted_vec_get l k = some x) : replace_first l k x = l := by
  induction l with
  | nil => rfl
  | cons y ys ih =>
    unfold sorted_vec_get at h
    unfold replace_first
    cases hc : cmp_chars (get_key y) k with
    | lt =>
      rw [hc] at h
      have hne : ¬ y.get_row_key = k := by
        intro he
        have : cmp_chars (get_key y) k = .eq := by
          show cmp_chars y.get_row_key k = .eq
          rw [he]; exact cmp_chars_refl k
        rw [this] at hc; cases hc
      rw [if_neg hne, ih h]
    | eq =>
      rw [hc] at h
      cases h
      have he : x.get_row_key = k := cmp_chars_eq hc
      rw [if_pos he]
    | gt => rw [hc] at h; cases h

/-- After replacing the found entry, `sorted_vec_get` returns the
replacement (whose key must match). -/
theorem sorted_vec_get_replace_first {l : List DbRow} {k : List Char}
    {x x' : DbRow} (h : sorted_vec_get l k = some x)
    (hk : x'.get_row_key = k) :
    sorted_vec_get (replace_first l k x') k = some x' := by
  induction l with
  | nil => simp [sorted_vec_get] at h
  | cons y ys ih =>
    unfold sorted_vec_get at h
    unfold replace_first
    cases hc : cmp_chars (get_key y) k with
    | lt =>
      rw [hc] at h
      have hne : ¬ y.get_row_key = k := by
        intro he
        have : cmp_chars (get_key y) k = .eq := by
          show cmp_chars y.get_row_key k = .eq
          rw [he]; exact cmp_chars_refl k
        rw [this] at hc; cases hc
      rw [if_neg hne]
      unfold sorted_vec_get
      have : cmp_chars (get_key y) k = .lt := hc
      rw [this]
      exact ih h
    | eq =>
      rw [hc] at h
      cases h
      have he : x.get_row_key = k := cmp_chars_eq hc
      rw [if_pos he]
      unfold sorted_vec_get
      have : cmp_chars (get_key x') k = .eq := by
        show cmp_chars x'.get_row_key k = .eq
        rw [hk]; exact cmp_chars_refl k
      rw [this]
    | gt => rw [hc] at h; cases h

/-- Replacing the found entry by a row with the same raw length preserves
the total raw size. -/
theorem replace_first_size {l : List DbRow} {k : List Char} {x x' : DbRow}
    (h : sorted_vec_get l k = some x) (hlen : x'.raw.length = x.raw.length) :
    rows_raw_size (replace_first l k x') = rows_raw_size l := by
  induction l with
  | nil => rfl
  | cons y ys ih =>
    unfold sorted_vec_get at h
    unfold replace_first
    cases hc : cmp_chars (get_key y) k with
    | lt =>
      rw [hc] at h
      have hne : ¬ y.get_row_key = k := by
        intro he
        have : cmp_chars (get_key y) k = .eq := by
          show cmp_chars y.get_row_key k = .eq
          rw [he]; exact cmp_chars_refl k
        rw [this] at hc; cases hc
      rw [if_neg hne, rows_raw_size_cons, rows_raw_size_cons, ih h]
    | eq =>
      rw [hc] at h
      cases h
      have he : x.get_row_key = k := cmp_chars_eq hc
      rw [if_pos he, rows_raw_size_cons, rows_raw_size_cons, hlen]
    | gt => rw [hc] at h; cases h

/-! Content-size preservation (invariant P1), one mutation at a time. -/

theorem insert_or_replace_row_state (p : DbPartition) (r : DbRow) :
    (p.insert_or_replace_row r).1.rows.data =
      (sorted_vec_insert_or_replace p.rows.data r).1 ∧
    (p.insert_or_replace_row r).1.content_size =
      p.content_size + r.raw.length -
        ((sorted_vec_insert_or_replace p.rows.data r).2.elim 0
          (fun d => d.raw.length)) := by
  unfold DbPartition.insert_or_replace_row
  have hsnd := rows_insert_snd p.rows r
  have hdata := rows_insert_data p.rows r
  cases hd : (sorted_vec_insert_or_replace p.rows.data r).2 with
  | none =>
    rw [hd] at hsnd
    simp only [hsnd, hdata, hd, Option.elim]
    constructor <;> trivial
  | some d =>
    rw [hd] at hsnd
    simp only [hsnd, hdata, hd, Option.elim]
    constructor <;> trivial

theorem insert_or_replace_row_preserves (p : DbPartition) (r : DbRow)
    (h : content_size_invariant p) :
    content_size_invariant (p.insert_or_replace_row r).1 := by
  obtain ⟨h1, h2⟩ := insert_or_replace_row_state p r
  unfold content_size_invariant at *
  rw [h1, h2]
  have hs := sv_insert_size p.rows.data r
  omega

theorem insert_row_preserves (p : DbPartition) (r : DbRow)
    (h : content_size_invariant p) :
    content_size_invariant (p.insert_row r).1 := by
  unfold DbPartition.insert_row
  by_cases hb : p.rows.has_db_row r.get_row_key
  · rw [if_pos hb]; exact h
  · rw [if_neg hb]; exact insert_or_replace_row_preserves p r h

/-- A property preserved by every step of a `foldl` holds of its result. -/
theorem foldl_preserves {α β : Type} (P : β → Prop) (f : β → α → β)
    (h : ∀ b a, P b → P (f b a)) :
    ∀ (l : List α) (b : β), P b → P (l.foldl f b)
  | [], _, hb => hb
  | a :: l, b, hb => foldl_preserves P f h l (f b a) (h b a hb)

theorem bulk_insert_preserves (p : DbPartition) (rows : List DbRow)
    (h : content_size_invariant p) :
    content_size_invariant (p.insert_or_replace_rows_bulk rows).1 := by
  unfold DbPartition.insert_or_replace_rows_bulk
  refine @foldl_preserves DbRow (DbPartition × List DbRow)
    (fun s => content_size_invariant s.1) _ ?_ rows (p, []) h
  intro s a hs
  exact insert_or_replace_row_preserves s.1 a hs

theorem remove_row_state (p : DbPartition) (k : List Char) :
    (p.remove_row k).1.rows.data = (sorted_vec_remove p.rows.data k).1 ∧
    (p.remove_row k).1.content_size =
      p.content_size -
        ((sorted_vec_remove p.rows.data k).2.elim 0 (fun d => d.raw.length)) := by
  unfold DbPartition.remove_row
  have hsnd := rows_remove_snd p.rows k
  have hdata := rows_remove_data p.rows k
  cases hd : (sorted_vec_remove p.rows.data k).2 with
  | none =>
    rw [hd] at hsnd
    simp only [hsnd, hdata, hd, Option.elim]
    constructor <;> trivial
  | some d =>
    rw [hd] at hsnd
    simp only [hsnd, hdata, hd, Option.elim]
    constructor <;> trivial

theorem remove_row_preserves (p : DbPartition) (k : List Char)
    (h : content_size_invariant p) :
    content_size_invariant (p.remove_row k).1 := by
  obtain ⟨h1, h2⟩ := remove_row_state p k
  unfold content_size_invariant at *
  rw [h1, h2]
  have hs := sv_remove_size p.rows.data k
  omega

theorem bulk_remove_preserves (p : DbPartition) (keys : List (List Char))
    (h : content_size_invariant p) :
    content_size_invariant (p.remove_rows_bulk keys).1 := by
  unfold DbPartition.remove_rows_bulk
  refine @foldl_preserves (List Char) (DbPartition × List DbRow)
    (fun s => content_size_invariant s.1) _ ?_ keys (p, []) h
  intro s a hs
  exact remove_row_preserves s.1 a hs

theorem update_expiration_time_data_size (c : DbRowsContainer)
    (k : List Char) (v : Option Int) :
    rows_raw_size (c.update_expiration_time k v).1.data =
      rows_raw_size c.data := by
  unfold DbRowsContainer.update_expiration_time
  cases hg : c.get k with
  | none => rfl
  | some row =>
    have hget : sorted_vec_get c.data k = some row := hg
    have hlen : (row.update_expires v).2.raw.length = row.raw.length := rfl
    by_cases he : are_expires_the_same (row.update_expires v).1 v
    · simp only [if_pos he]
      exact replace_first_size hget hlen
    · simp only [if_neg he]
      exact replace_first_size hget hlen

theorem update_expiration_time_preserves (p : DbPartition) (k : List Char)
    (v : Option Int) (h : content_size_invariant p) :
    content_size_invariant
      { p with rows := (p.rows.update_expiration_time k v).1 } := by
  unfold content_size_invariant at *
  rw [update_expiration_time_data_size]
  exact h

theorem content_size_step (p : DbPartition) (op : DbPartitionOp)
    (h : content_size_invariant p) :
    content_size_invariant (p.apply_op op) := by
  cases op with
  | insert_row r => exact insert_row_preserves p r h
  | insert_or_replace_row r => exact insert_or_replace_row_preserves p r h
  | insert_or_replace_rows_bulk rs => exact bulk_insert_preserves p rs h
  | remove_row k => exact remove_row_preserves p k h
  | remove_rows_bulk ks => exact bulk_remove_preserves p ks h
  | update_expiration_time k v => exact update_expiration_time_preserves p k v h

/-- C6: invariant P1 — after every sequence of `insert_row`,
`insert_or_replace_row`, `insert_or_replace_rows_bulk`, `remove_row`,
`remove_rows_bulk` (and `update_expiration_time`) mutations applied to a
fresh partition, `content_size` equals the sum of `len(row.raw)` over the
rows currently in the partition: displaced and removed rows' sizes are
subtracted, and a refused `insert_row` leaves `content_size` unchanged. -/
theorem C6_content_size_invariant_holds (pk : List Char) (now : Int)
    (ops : List DbPartitionOp) :
    content_size_invariant (DbPartition.apply_ops (DbPartition.new pk now) ops) := by
  unfold DbPartition.apply_ops
  refine foldl_preserves content_size_invariant DbPartition.apply_op
    ?_ ops (DbPartition.new pk now) rfl
  intro q op hq
  exact content_size_step q op hq

/-! Lemmas for `update_expiration_time` (claim C7). -/

/-- When the old and new expirations compare equal, the atomic swap stores
the value already present: the row is unchanged. -/
theorem update_expires_same {row : DbRow} {t : Option Int}
    (h : are_expires_the_same row.get_expires t = true) :
    (row.update_expires t).2 = row := by
  unfold DbRow.update_expires
  cases t with
  | none =>
    unfold are_expires_the_same at h
    cases hg : row.get_expires with
    | some o => rw [hg] at h; cases h
    | none =>
      have hev : row.expires_value = 0 := by
        unfold DbRow.get_expires at hg
        by_cases h0 : row.expires_value = 0
        · exact h0
        · rw [if_neg h0] at hg; cases hg
      show ({ row with expires_value := 0 } : DbRow) = row
      rw [← hev]
  | some v =>
    unfold are_expires_the_same at h
    cases hg : row.get_expires with
    | none => rw [hg] at h; cases h
    | some o =>
      rw [hg] at h
      have hvo : v = o := by simpa using h
      unfold DbRow.get_expires at hg
      by_cases h0 : row.expires_value = 0
      · rw [if_pos h0] at hg; cases hg
      · rw [if_neg h0] at hg
        injection hg with ho
        show ({ row with expires_value := v } : DbRow) = row
        rw [hvo, ← ho]

theorem update_expires_row_key (row : DbRow) (t : Option Int) :
    (row.update_expires t).2.get_row_key = row.get_row_key := rfl

/-- Writing the value a field already holds leaves the structure intact. -/
theorem dbrow_set_expires_value (r : DbRow) (v : Int)
    (h : r.expires_value = v) :
    ({ r with expires_value := v } : DbRow) = r := by
  cases r
  cases h
  rfl

/-- C7 (amended): `update_expiration_time` returns `None` and leaves the
container unchanged when the row's current expiration equals the request
under `are_expires_the_same` — both `None`, or both `Some` with equal
`unix_microseconds` (a request of `Some(0)` on a row without expiration is
NOT "equal": it returns `Some(row)`, though it still changes nothing); and
calling `update_expiration_time(r, v)` twice in a row changes nothing after
the first call. -/
theorem C7_update_expiration_time_amended (c : DbRowsContainer)
    (k : List Char) (t : Option Int) :
    (∀ row, c.get k = some row →
      are_expires_the_same row.get_expires t = true →
      c.update_expiration_time k t = (c, none)) ∧
    ((c.update_expiration_time k t).1.update_expiration_time k t).1 =
      (c.update_expiration_time k t).1 := by
  constructor
  · intro row hget hsame
    unfold DbRowsContainer.update_expiration_time
    rw [hget]
    dsimp only
    have h1 : (row.update_expires t).1 = row.get_expires := rfl
    rw [if_pos (by rw [h1]; exact hsame)]
    rw [update_expires_same hsame, replace_first_self hget]
  · cases hg : c.get k with
    | none =>
      have hfirst : c.update_expiration_time k t = (c, none) := by
        unfold DbRowsContainer.update_expiration_time
        rw [hg]
      rw [hfirst]
      exact congrArg Prod.fst hfirst
    | some row =>
      have hget : sorted_vec_get c.data k = some row := hg
      have hrk : (row.update_expires t).2.get_row_key = k := by
        rw [update_expires_row_key]
        exact sorted_vec_get_key hget
      have hdata1 : (c.update_expiration_time k t).1.data =
          replace_first c.data k (row.update_expires t).2 := by
        unfold DbRowsContainer.update_expiration_time
        rw [hg]
        dsimp only
        split <;> rfl
      have hget1 : (c.update_expiration_time k t).1.get k =
          some (row.update_expires t).2 := by
        show sorted_vec_get (c.update_expiration_time k t).1.data k = _
        rw [hdata1]
        exact sorted_vec_get_replace_first hget hrk
      generalize (c.update_expiration_time k t).1 = c1 at hget1 ⊢
      unfold DbRowsContainer.update_expiration_time
      rw [hget1]
      dsimp only
      cases t with
      | none =>
        have hge : (row.update_expires none).2.get_expires = none := by
          show (if (0 : Int) = 0 then none else _) = none
          rw [if_pos rfl]
        have hsame2 : are_expires_the_same
            ((row.update_expires none).2.update_expires none).1 none = true := by
          show are_expires_the_same (row.update_expires none).2.get_expires
            none = true
          rw [hge]
          rfl
        rw [if_pos hsame2]
        have heta : ((row.update_expires none).2.update_expires none).2 =
            (row.update_expires none).2 := dbrow_set_expires_value _ _ rfl
        rw [heta, replace_first_self hget1]
      | some v =>
        by_cases hv : v = 0
        · subst hv
          have hsame2 : are_expires_the_same
              ((row.update_expires (some 0)).2.update_expires (some 0)).1
                (some 0) = false := by
            show are_expires_the_same
              (row.update_expires (some 0)).2.get_expires (some 0) = false
            show are_expires_the_same
              (if (0 : Int) = 0 then none else some 0) (some 0) = false
            rw [if_pos rfl]
            rfl
          rw [if_neg (by rw [hsame2]; exact Bool.false_ne_true)]
          have heta : ((row.update_expires (some 0)).2.update_expires
              (some 0)).2 = (row.update_expires (some 0)).2 :=
            dbrow_set_expires_value _ _ rfl
          rw [heta, replace_first_self hget1]
          have hidx : (c1.rows_with_expiration_index.update
              ((row.update_expires (some 0)).2.update_expires (some 0)).1
              (row.update_expires (some 0)).2) =
              c1.rows_with_expiration_index := by
            have hu1 : ((row.update_expires (some 0)).2.update_expires
                (some 0)).1 = none := by
              show (row.update_expires (some 0)).2.get_expires = none
              show (if (0 : Int) = 0 then none else some 0) = none
              rw [if_pos rfl]
            rw [hu1]
            unfold ExpirationIndexContainer.update
            show ((_ : ExpirationIndexContainer DbRow).add _).1 = _
            unfold ExpirationIndexContainer.add
            have hm : get_expiration_moment (row.update_expires (some 0)).2 =
                (none : Option Int) := by
              show (row.update_expires (some 0)).2.get_expires = none
              show (if (0 : Int) = 0 then none else some 0) = none
              rw [if_pos rfl]
            rw [hm]
          rw [hidx]
        · have hge : (row.update_expires (some v)).2.get_expires = some v := by
            show (if v = 0 then none else some v) = some v
            rw [if_neg hv]
          have hsame2 : are_expires_the_same
              ((row.update_expires (some v)).2.update_expires (some v)).1
                (some v) = true := by
            show are_expires_the_same
              (row.update_expires (some v)).2.get_expires (some v) = true
            rw [hge]
            simp [are_expires_the_same]
          rw [if_pos hsame2]
          have heta : ((row.update_expires (some v)).2.update_expires
              (some v)).2 = (row.update_expires (some v)).2 :=
            dbrow_set_expires_value _ _ rfl
          rw [heta, replace_first_self hget1]

/-- Witness for C7: on a container holding row `s` expiring at 9, asking
`update_expiration_time` for the same `Some(9)` returns `None` and changes
nothing; and the second of two identical calls is always a no-op. -/
theorem C7_update_expiration_time_amended_witness :
    (let c : DbRowsContainer :=
      { data := [tiny_row 's' 9 0]
        rows_with_expiration_index := ExpirationIndexContainer.new DbRow }
    c.get ['s'] = some (tiny_row 's' 9 0) ∧
    are_expires_the_same (tiny_row 's' 9 0).get_expires (some 9) = true ∧
    c.update_expiration_time ['s'] (some 9) = (c, none) ∧
    ((c.update_expiration_time ['s'] (some 9)).1.update_expiration_time
      ['s'] (some 9)).1 = (c.update_expiration_time ['s'] (some 9)).1) := by
  refine ⟨by decide, by decide, ?_, ?_⟩
  · exact (C7_update_expiration_time_amended _ ['s'] (some 9)).1
      (tiny_row 's' 9 0) (by decide) (by decide)
  · exact (C7_update_expiration_time_amended _ ['s'] (some 9)).2

/-! Lemmas for the table-level `last_write_moment` bookkeeping (claim C9). -/

theorem sorted_vec_get_insert_self {α : Type} [EntityWithStrKey α]
    (l : List α) (e : α) (k : List Char) (hk : get_key e = k) :
    sorted_vec_get (sorted_vec_insert_or_replace l e).1 k = some e := by
  induction l with
  | nil =>
    unfold sorted_vec_insert_or_replace sorted_vec_get
    rw [show cmp_chars (get_key e) k = .eq from by rw [hk]; exact cmp_chars_refl k]
  | cons y ys ih =>
    unfold sorted_vec_insert_or_replace
    cases hc : cmp_chars (get_key y) (get_key e) with
    | lt =>
      show sorted_vec_get (y :: (sorted_vec_insert_or_replace ys e).1) k = some e
      unfold sorted_vec_get
      rw [show cmp_chars (get_key y) k = .lt from by rw [← hk]; exact hc]
      exact ih
    | eq =>
      show sorted_vec_get (e :: ys) k = some e
      unfold sorted_vec_get
      rw [show cmp_chars (get_key e) k = .eq from by rw [hk]; exact cmp_chars_refl k]
    | gt =>
      show sorted_vec_get (e :: y :: ys) k = some e
      unfold sorted_vec_get
      rw [show cmp_chars (get_key e) k = .eq from by rw [hk]; exact cmp_chars_refl k]

theorem add_partition_get_isSome (c : DbPartitionsContainer)
    (pk : List Char) (now : Int) :
    ((c.add_partition_if_not_exists pk now).get pk).isSome = true := by
  unfold DbPartitionsContainer.add_partition_if_not_exists
  by_cases hc : sorted_vec_contains c.partitions pk = true
  · rw [if_pos hc]
    exact hc
  · rw [if_neg hc]
    show (sorted_vec_get (sorted_vec_insert_or_replace c.partitions
      (DbPartition.new pk now)).1 pk).isSome = true
    rw [sorted_vec_get_insert_self c.partitions (DbPartition.new pk now) pk rfl]
    rfl

theorem sorted_vec_get_map_replace (l : List DbPartition) (pk : List Char)
    (p x : DbPartition) (hp : p.partition_key = pk)
    (hget : sorted_vec_get l pk = some x) :
    sorted_vec_get
      (l.map (fun y => if y.partition_key = pk then p else y)) pk = some p := by
  induction l with
  | nil => simp [sorted_vec_get] at hget
  | cons y ys ih =>
    unfold sorted_vec_get at hget
    cases hc : cmp_chars (get_key y) pk with
    | lt =>
      rw [hc] at hget
      have hne : ¬ y.partition_key = pk := by
        intro he
        have : cmp_chars (get_key y) pk = .eq := by
          show cmp_chars y.partition_key pk = .eq
          rw [he]; exact cmp_chars_refl pk
        rw [this] at hc; cases hc
      rw [List.map_cons, if_neg hne]
      unfold sorted_vec_get
      rw [show cmp_chars (get_key y) pk = .lt from hc]
      exact ih hget
    | eq =>
      have he : y.partition_key = pk := cmp_chars_eq hc
      rw [List.map_cons, if_pos he]
      unfold sorted_vec_get
      rw [show cmp_chars (get_key p) pk = .eq from by
        show cmp_chars p.partition_key pk = .eq
        rw [hp]; exact cmp_chars_refl pk]
    | gt => rw [hc] at hget; cases hget

theorem get_modify_partition (c : DbPartitionsContainer) (pk : List Char)
    (p x : DbPartition) (hp : p.partition_key = pk)
    (hget : c.get pk = some x) :
    (c.modify_partition pk p).get pk = some p := by
  unfold DbPartitionsContainer.modify_partition
  show sorted_vec_get _ pk = some p
  rw [show sorted_vec_get c.partitions pk = some x from hget]
  exact sorted_vec_get_map_replace c.partitions pk p x hp hget

theorem ior_row_pk (p : DbPartition) (r : DbRow) :
    (p.insert_or_replace_row r).1.partition_key = p.partition_key := by
  unfold DbPartition.insert_or_replace_row
  dsimp only
  split <;> rfl

theorem insert_row_pk (p : DbPartition) (r : DbRow) :
    (p.insert_row r).1.partition_key = p.partition_key := by
  unfold DbPartition.insert_row
  split
  · rfl
  · exact ior_row_pk p r

theorem bulk_ior_pk (p : DbPartition) (rows : List DbRow) :
    (p.insert_or_replace_rows_bulk rows).1.partition_key = p.partition_key := by
  unfold DbPartition.insert_or_replace_rows_bulk
  refine @foldl_preserves DbRow (DbPartition × List DbRow)
    (fun s => s.1.partition_key = p.partition_key) _ ?_ rows (p, []) rfl
  intro s a hs
  exact Eq.trans (ior_row_pk s.1 a) hs

theorem remove_row_pk (p : DbPartition) (k : List Char) :
    (p.remove_row k).1.partition_key = p.partition_key := by
  unfold DbPartition.remove_row
  dsimp only
  split <;> rfl

theorem bulk_remove_pk (p : DbPartition) (keys : List (List Char)) :
    (p.remove_rows_bulk keys).1.partition_key = p.partition_key := by
  unfold DbPartition.remove_rows_bulk
  refine @foldl_preserves (List Char) (DbPartition × List DbRow)
    (fun s => s.1.partition_key = p.partition_key) _ ?_ keys (p, []) rfl
  intro s a hs
  exact Eq.trans (remove_row_pk s.1 a) hs

/-- C9 (amended): among the mutations annotated with
`set_last_write_moment = Some(m)`, `insert_or_replace_row` and
`bulk_insert_or_replace` set BOTH the table's and the affected partition's
`last_write_moment` to `m`; `insert_row` (when it succeeds), `remove_row`
and `bulk_remove_rows` (when they remove something) set the affected
partition's `last_write_moment` to `m` but the TABLE's to the current clock
(`DateTimeAsMicroseconds::now()`), not to `m`. -/
theorem C9_set_last_write_moment_amended (t : DbTableInner) (db_row : DbRow)
    (pk rk : List Char) (rows : List DbRow) (keys : List (List Char))
    (m now : Int) :
    ((t.insert_or_replace_row db_row (some m) now).1.last_write_moment = m ∧
      ((t.insert_or_replace_row db_row (some m) now).1.partitions.get
          db_row.get_partition_key).map DbPartition.last_write_moment =
        some m) ∧
    ((t.bulk_insert_or_replace pk rows (some m) now).1.last_write_moment = m ∧
      ((t.bulk_insert_or_replace pk rows (some m) now).1.partitions.get
          pk).map DbPartition.last_write_moment = some m) ∧
    ((t.insert_row db_row (some m) now).2 = true →
      (t.insert_row db_row (some m) now).1.last_write_moment = now ∧
      ((t.insert_row db_row (some m) now).1.partitions.get
          db_row.get_partition_key).map DbPartition.last_write_moment =
        some m) ∧
    ((t.remove_row pk rk false (some m) now).2.isSome = true →
      (t.remove_row pk rk false (some m) now).1.last_write_moment = now ∧
      ((t.remove_row pk rk false (some m) now).1.partitions.get pk).map
        DbPartition.last_write_moment = some m) ∧
    ((t.bulk_remove_rows pk keys false (some m) now).2.isSome = true →
      (t.bulk_remove_rows pk keys false (some m) now).1.last_write_moment =
        now ∧
      ((t.bulk_remove_rows pk keys false (some m) now).1.partitions.get
        pk).map DbPartition.last_write_moment = some m) := by
  refine ⟨?_, ?_, ?_, ?_, ?_⟩
  · -- insert_or_replace_row
    have hiss := add_partition_get_isSome t.partitions
      db_row.get_partition_key now
    cases hq : (t.partitions.add_partition_if_not_exists
        db_row.get_partition_key now).get db_row.get_partition_key with
    | none => rw [hq] at hiss; cases hiss
    | some q =>
      unfold DbTableInner.insert_or_replace_row
      dsimp only
      rw [hq]
      dsimp only
      constructor
      · rfl
      · rw [get_modify_partition _ _ _ q
          (by
            show (q.insert_or_replace_row db_row).1.partition_key = _
            rw [ior_row_pk]
            exact sorted_vec_get_key hq) hq]
        rfl
  · -- bulk_insert_or_replace
    have hiss := add_partition_get_isSome t.partitions pk now
    cases hq : (t.partitions.add_partition_if_not_exists pk now).get pk with
    | none => rw [hq] at hiss; cases hiss
    | some q =>
      unfold DbTableInner.bulk_insert_or_replace
      dsimp only
      rw [hq]
      dsimp only
      constructor
      · rfl
      · rw [get_modify_partition _ _ _ q
          (by
            show (q.insert_or_replace_rows_bulk rows).1.partition_key = _
            rw [bulk_ior_pk]
            exact sorted_vec_get_key hq) hq]
        rfl
  · -- insert_row
    intro hres
    have hiss := add_partition_get_isSome t.partitions
      db_row.get_partition_key now
    cases hq : (t.partitions.add_partition_if_not_exists
        db_row.get_partition_key now).get db_row.get_partition_key with
    | none => rw [hq] at hiss; cases hiss
    | some q =>
      by_cases hr2 : (q.insert_row db_row).2 = true
      · unfold DbTableInner.insert_row
        dsimp only
        rw [hq]
        dsimp only
        rw [if_pos hr2]
        constructor
        · rfl
        · rw [get_modify_partition _ _ _ q
            (by
              show (q.insert_row db_row).1.partition_key = _
              rw [insert_row_pk]
              exact sorted_vec_get_key hq) hq]
          rfl
      · exfalso
        apply hr2
        have : (t.insert_row db_row (some m) now).2 = (q.insert_row db_row).2 := by
          unfold DbTableInner.insert_row
          dsimp only
          rw [hq]
          dsimp only
          by_cases h2 : (q.insert_row db_row).2 = true
          · rw [if_pos h2, h2]
          · rw [if_neg h2]
            cases hb : (q.insert_row db_row).2
            · rfl
            · exact absurd hb h2
        rw [← this]
        exact hres
  · -- remove_row
    intro hres
    cases hq : t.partitions.get pk with
    | none =>
      have : (t.remove_row pk rk false (some m) now).2 = none := by
        unfold DbTableInner.remove_row
        rw [hq]
      rw [this] at hres
      cases hres
    | some q =>
      cases hr : (q.remove_row rk).2 with
      | none =>
        have : (t.remove_row pk rk false (some m) now).2 = none := by
          unfold DbTableInner.remove_row
          rw [hq]
          dsimp only
          rw [hr]
        rw [this] at hres
        cases hres
      | some removed =>
        unfold DbTableInner.remove_row
        rw [hq]
        dsimp only
        rw [hr]
        dsimp only
        rw [if_neg (by simp)]
        constructor
        · rfl
        · rw [get_modify_partition _ _ _ q
            (by
              show (q.remove_row rk).1.partition_key = _
              rw [remove_row_pk]
              exact sorted_vec_get_key hq) hq]
          rfl
  · -- bulk_remove_rows
    intro hres
    cases hq : t.partitions.get pk with
    | none =>
      have : (t.bulk_remove_rows pk keys false (some m) now).2 = none := by
        unfold DbTableInner.bulk_remove_rows
        rw [hq]
      rw [this] at hres
      cases hres
    | some q =>
      cases hr : (q.remove_rows_bulk keys).2 with
      | none =>
        have : (t.bulk_remove_rows pk keys false (some m) now).2 = none := by
          unfold DbTableInner.bulk_remove_rows
          rw [hq]
          dsimp only
          rw [hr]
        rw [this] at hres
        cases hres
      | some removed =>
        unfold DbTableInner.bulk_remove_rows
        rw [hq]
        dsimp only
        rw [hr]
        dsimp only
        rw [if_neg (by simp)]
        constructor
        · rfl
        · rw [get_modify_partition _ _ _ q
            (by
              show (q.remove_rows_bulk keys).1.partition_key = _
              rw [bulk_remove_pk]
              exact sorted_vec_get_key hq) hq]
          rfl

/-- Witness for C9 (amended): on a concrete table with partition `p` holding
row `r`, a successful `insert_row` (key `s`), `remove_row` and
`bulk_remove_rows` annotated with `Some(5)` under ambient clock 7 set the
table's moment to 7 and the partition's to 5. -/
theorem C9_set_last_write_moment_amended_witness :
    (c9_table.insert_row sample_row_ps (some 5) 7).2 = true ∧
    ((c9_table.insert_row sample_row_ps (some 5) 7).1.last_write_moment = 7 ∧
      ((c9_table.insert_row sample_row_ps (some 5) 7).1.partitions.get
          ['p']).map DbPartition.last_write_moment = some 5) ∧
    (c9_table.remove_row ['p'] ['r'] false (some 5) 7).2.isSome = true ∧
    ((c9_table.remove_row ['p'] ['r'] false (some 5) 7).1.last_write_moment = 7 ∧
      ((c9_table.remove_row ['p'] ['r'] false (some 5) 7).1.partitions.get
          ['p']).map DbPartition.last_write_moment = some 5) ∧
    (c9_table.bulk_remove_rows ['p'] [['r']] false (some 5) 7).2.isSome = true ∧
    ((c9_table.bulk_remove_rows ['p'] [['r']] false (some 5) 7).1.last_write_moment = 7 ∧
      ((c9_table.bulk_remove_rows ['p'] [['r']] false (some 5) 7).1.partitions.get
          ['p']).map DbPartition.last_write_moment = some 5) ∧
    (c9_table.insert_or_replace_row sample_row_pr (some 5) 7).1.last_write_moment = 5 := by
  refine ⟨by decide, ?_, by decide, ?_, by decide, ?_, ?_⟩
  · exact (C9_set_last_write_moment_amended c9_table sample_row_ps ['p'] ['r']
      [] [['r']] 5 7).2.2.1 (by decide)
  · exact (C9_set_last_write_moment_amended c9_table sample_row_ps ['p'] ['r']
      [] [['r']] 5 7).2.2.2.1 (by decide)
  · exact (C9_set_last_write_moment_amended c9_table sample_row_ps ['p'] ['r']
      [] [['r']] 5 7).2.2.2.2 (by decide)
  · have := (C9_set_last_write_moment_amended c9_table sample_row_pr ['p'] ['r']
      [] [['r']] 5 7).1.1
    exact this

/-! Lemmas about occurrences of the substring `Expires` (claims C3, C10). -/

theorem occurs_get {s : List Char} {q : Nat} (h : occurs_expires_at s q)
    {i : Nat} (hi : i < 7) : s.get? (q + i) = expires_pattern.get? i := by
  have h' := congrArg (fun l => l.get? i) h
  simp only [List.get?_take hi, List.get?_drop] at h'
  exact h'

theorem occurs_length {s : List Char} {q : Nat} (h : occurs_expires_at s q) :
    q + 7 ≤ s.length := by
  have h' := congrArg List.length h
  simp only [List.length_take, List.length_drop] at h'
  have : expires_pattern.length = 7 := rfl
  omega

theorem occurs_of_take {s : List Char} {c q : Nat}
    (h : occurs_expires_at (s.take c) q) (hq : q + 7 ≤ c) :
    occurs_expires_at s q := by
  unfold occurs_expires_at at h ⊢
  rw [List.drop_take, List.take_take, Nat.min_eq_left (by omega)] at h
  exact h

theorem occurs_of_drop {s : List Char} {v d : Nat}
    (h : occurs_expires_at (s.drop v) d) : occurs_expires_at s (v + d) := by
  unfold occurs_expires_at at h ⊢
  rwa [List.drop_drop] at h

theorem occurs_append_cases {A B : List Char} {q : Nat}
    (h : occurs_expires_at (A ++ B) q) :
    (q + 7 ≤ A.length ∧ occurs_expires_at A q) ∨
    (A.length ≤ q ∧ occurs_expires_at B (q - A.length)) ∨
    (∃ ch, B.get? 0 = some ch ∧ ch ∈ expires_pattern) := by
  by_cases h1 : q + 7 ≤ A.length
  · left
    refine ⟨h1, ?_⟩
    unfold occurs_expires_at at h ⊢
    rw [List.drop_append_of_le_length (by omega),
      List.take_append_of_le_length (by simp [List.length_drop]; omega)] at h
    exact h
  · by_cases h2 : A.length ≤ q
    · right; left
      refine ⟨h2, ?_⟩
      unfold occurs_expires_at at h ⊢
      rw [show q = A.length + (q - A.length) by omega, ← List.drop_drop,
        List.drop_left] at h
      exact h
    · right; right
      have hg := occurs_get h (i := A.length - q) (by omega)
      rw [show q + (A.length - q) = A.length by omega,
        List.get?_append_right (Nat.le_refl _), Nat.sub_self] at hg
      cases hP : expires_pattern.get? (A.length - q) with
      | none =>
        rw [hP] at hg
        have hlen : A.length - q < expires_pattern.length := by
          have : expires_pattern.length = 7 := rfl
          omega
        rw [List.get?_eq_none] at hP
        omega
      | some ch =>
        rw [hP] at hg
        exact ⟨ch, hg, List.get?_mem hP⟩

theorem exists_occurs_of_contains {s : List Char} (h : contains_expires s) :
    ∃ q, q < s.length ∧ occurs_expires_at s q := by
  obtain ⟨q, hmem, hq⟩ := h
  exact ⟨q, List.mem_range.mp hmem, hq⟩

/-- Core of the E1 "no `Expires` field" direction: excising a region between
`c` and `d` that contains every occurrence of `Expires` (all occurrences lie
in `[ks, v)` with `c ≤ ks ≤ v ≤ d`) leaves no occurrence, provided the byte
at the junction `d` is not a letter of `Expires`. -/
theorem no_expires_take_drop (s : List Char) (c ks v d : Nat)
    (hcks : c ≤ ks) (hks : ks ≤ v) (hvd : v ≤ d) (hd : d ≤ s.length)
    (hloc : ∀ q, q < s.length → occurs_expires_at s q →
      ks ≤ q ∧ q + 7 ≤ v)
    (hj : option_char_not_in_pattern (s.get? d)) :
    ¬ contains_expires (s.take c ++ s.drop d) := by
  intro hcon
  obtain ⟨q, hqlt, hq⟩ := exists_occurs_of_contains hcon
  have hAlen : (s.take c).length = c := by
    rw [List.length_take]; omega
  rcases occurs_append_cases hq with ⟨h1, hA⟩ | ⟨h2, hB⟩ | ⟨ch, hch, hmem⟩
  · rw [hAlen] at h1
    have hs : occurs_expires_at s q := occurs_of_take hA (by omega)
    have hb := hloc q (by have := occurs_length hs; omega) hs
    omega
  · have hs := occurs_of_drop hB
    have hb := hloc _ (by have := occurs_length hs; omega) hs
    omega
  · rw [List.get?_drop, Nat.add_zero] at hch
    rw [hch] at hj
    exact hj hmem

theorem find_json_separator_before_le (src : List Char) :
    ∀ p c, find_json_separator_before src p = some c → c ≤ p := by
  intro p
  induction p with
  | zero => intro c h; cases h
  | succ i ih =>
    intro c h
    unfold find_json_separator_before at h
    cases hg : src.get? (i + 1) with
    | none => rw [hg] at h; cases h
    | some b =>
      rw [hg] at h
      dsimp only at h
      by_cases hb : b.toNat ≤ 32
      · rw [if_pos hb] at h
        have := ih c h
        omega
      · rw [if_neg hb] at h
        by_cases hc : b = ','
        · rw [if_pos hc] at h
          injection h with h'
          omega
        · rw [if_neg hc] at h; cases h

theorem find_json_separator_after_loop_bounds (src : List Char) :
    ∀ (fuel p j : Nat), find_json_separator_after_loop src fuel p = some j →
      p < j ∧ j ≤ src.length := by
  intro fuel
  induction fuel with
  | zero => intro p j h; cases h
  | succ n ih =>
    intro p j h
    unfold find_json_separator_after_loop at h
    cases hg : src.get? p with
    | none => rw [hg] at h; cases h
    | some b =>
      rw [hg] at h
      dsimp only at h
      have hp : p < src.length := by
        rcases List.get?_eq_some.mp hg with ⟨hlt, _⟩
        exact hlt
      by_cases hb : b.toNat ≤ 32
      · rw [if_pos hb] at h
        have := ih (p + 1) j h
        omega
      · rw [if_neg hb] at h
        by_cases hc : b = ','
        · rw [if_pos hc] at h
          injection h with h'
          omega
        · rw [if_neg hc] at h; cases h

theorem find_json_separator_after_bounds {src : List Char} {p j : Nat}
    (h : find_json_separator_after src p = some j) :
    p < j ∧ j ≤ src.length :=
  find_json_separator_after_loop_bounds src (src.length - p) p j h

/-- A document of the shape `A ++ "Expires" ++ B` contains the substring. -/
theorem contains_expires_of_append (A B : List Char) :
    contains_expires (A ++ expires_pattern ++ B) := by
  refine ⟨A.length, ?_, ?_⟩
  · rw [List.mem_range]
    simp only [List.append_assoc, List.length_append]
    have : expires_pattern.length = 7 := rfl
    omega
  · unfold occurs_expires_at
    rw [List.append_assoc, List.drop_left,
      show (7 : Nat) = expires_pattern.length from rfl, List.take_left]

/-- The zero direction of invariant E1: a well-formed row whose current
`expires_value` is `0` emits a document without the substring `Expires`. -/
theorem write_json_zero_no_expires (r : DbRow) (hwf : row_well_formed r)
    (h0 : r.expires_value = 0) : ¬ contains_expires r.write_json := by
  have hg : r.get_expires = none := by
    unfold DbRow.get_expires
    rw [if_pos h0]
  unfold DbRow.write_json
  rw [hg]
  dsimp only
  unfold row_well_formed at hwf
  cases hpos : r.expires with
  | none =>
    rw [hpos] at hwf
    intro hcon
    obtain ⟨q, hqlt, hq⟩ := exists_occurs_of_contains hcon
    exact hwf q hqlt hq
  | some pos =>
    rw [hpos] at hwf
    obtain ⟨hks0, hksv, hvlen, hloc, hjv, hja⟩ := hwf
    dsimp only
    cases hfb : find_json_separator_before r.raw (pos.key.start - 1) with
    | some bs =>
      have hbs := find_json_separator_before_le r.raw (pos.key.start - 1) bs hfb
      exact no_expires_take_drop r.raw bs pos.key.start pos.value.endPos
        pos.value.endPos (by omega) hksv (Nat.le_refl _) hvlen hloc hjv
    | none =>
      dsimp only
      cases hfa : find_json_separator_after r.raw pos.value.endPos with
      | some j =>
        have hb := find_json_separator_after_bounds hfa
        rw [hfa] at hja
        exact no_expires_take_drop r.raw pos.key.start pos.key.start
          pos.value.endPos j (Nat.le_refl _) hksv (by omega) hb.2 hloc hja
      | none =>
        exact no_expires_take_drop r.raw pos.key.start pos.key.start
          pos.value.endPos pos.value.endPos (Nat.le_refl _) hksv
          (Nat.le_refl _) hvlen hloc hjv

/-- C3: invariant E1 of `write_json`. For a well-formed row: when
`expires_value` is non-zero the emitted document is `raw` with
`"Expires":"<rfc3339(v)[..19]>"` spliced over the recorded `Expires`
key/value range (when `raw` held the field) or inserted, after a comma,
before the closing `}` (when it did not), and the output contains the
`Expires` field; when `expires_value` is zero — as after
`update_expires(None)` — the output does not contain the substring
`Expires` (the key, value and one adjacent comma having been excised when
`raw` held the field). -/
theorem C3_write_json_expires_invariant (r : DbRow)
    (hwf : row_well_formed r) :
    (r.expires_value ≠ 0 →
      r.write_json =
        (match r.expires with
          | some pos =>
            r.raw.take pos.key.start ++ inject_expires r.expires_value ++
              r.raw.drop pos.value.endPos
          | none =>
            r.raw.take (get_the_end_of_the_json r.raw) ++ [','] ++
              inject_expires r.expires_value ++
              r.raw.drop (get_the_end_of_the_json r.raw)) ∧
      contains_expires r.write_json) ∧
    (r.expires_value = 0 → ¬ contains_expires r.write_json) := by
  constructor
  · intro h0
    have hg : r.get_expires = some r.expires_value := by
      unfold DbRow.get_expires
      rw [if_neg h0]
    have hout : r.write_json =
        (match r.expires with
          | some pos =>
            r.raw.take pos.key.start ++ inject_expires r.expires_value ++
              r.raw.drop pos.value.endPos
          | none =>
            r.raw.take (get_the_end_of_the_json r.raw) ++ [','] ++
              inject_expires r.expires_value ++
              r.raw.drop (get_the_end_of_the_json r.raw)) := by
      unfold DbRow.write_json
      rw [hg]
    refine ⟨hout, ?_⟩
    rw [hout]
    cases hpos : r.expires with
    | some pos =>
      dsimp only
      have : r.raw.take pos.key.start ++ inject_expires r.expires_value ++
          r.raw.drop pos.value.endPos =
          (r.raw.take pos.key.start ++ ['"']) ++ expires_pattern ++
            ("\":\"".toList ++ (to_rfc3339 r.expires_value).take 19 ++ ['"'] ++
              r.raw.drop pos.value.endPos) := by
        unfold inject_expires
        simp [List.append_assoc, expires_pattern]
      rw [this]
      exact contains_expires_of_append _ _
    | none =>
      dsimp only
      have : r.raw.take (get_the_end_of_the_json r.raw) ++ [','] ++
          inject_expires r.expires_value ++
          r.raw.drop (get_the_end_of_the_json r.raw) =
          (r.raw.take (get_the_end_of_the_json r.raw) ++ [','] ++ ['"']) ++
            expires_pattern ++
            ("\":\"".toList ++ (to_rfc3339 r.expires_value).take 19 ++ ['"'] ++
              r.raw.drop (get_the_end_of_the_json r.raw)) := by
        unfold inject_expires
        simp [List.append_assoc, expires_pattern]
      rw [this]
      exact contains_expires_of_append _ _
  · intro h0
    exact write_json_zero_no_expires r hwf h0

/-- Witness for C3: the repo's test document
`{"PartitionKey":"test","RowKey":"test","Expires":"2019-01-01T00:00:00"}` is
well-formed, carries a non-zero expiration, and `write_json` splices the
19-character RFC3339 rendering over bytes 39–69. -/
theorem C3_write_json_expires_invariant_witness :
    row_well_formed sample_row_expires ∧
    sample_row_expires.expires_value ≠ 0 ∧
    (sample_row_expires.write_json =
      sample_raw_expires.take 39 ++ inject_expires 1546300800000000 ++
        sample_raw_expires.drop 70 ∧
    contains_expires sample_row_expires.write_json) := by
  refine ⟨by decide, by decide, ?_⟩
  exact (C3_write_json_expires_invariant sample_row_expires (by decide)).1
    (by decide)

/-- C10: a `0`-microsecond expiration is the "no expiration" sentinel:
`update_expires(Some(0))` is indistinguishable from `update_expires(None)`
(same returned previous value, same resulting row), the subsequent
`get_expires()` returns `None`, and (for a well-formed row) `write_json`
emits a document with no `Expires` in it. -/
theorem C10_update_expires_zero_sentinel (r : DbRow) (t : Int) (h0 : t = 0) :
    r.update_expires (some t) = r.update_expires none ∧
    (r.update_expires (some t)).2.get_expires = none ∧
    (row_well_formed r →
      ¬ contains_expires (r.update_expires (some t)).2.write_json) := by
  subst h0
  refine ⟨rfl, rfl, ?_⟩
  intro hwf
  exact write_json_zero_no_expires _ hwf rfl

/-- Witness for C10: applying `update_expires(Some(0))` to the repo's test
document with an `Expires` field yields a row whose `get_expires` is `None`
and whose `write_json` output has no `Expires` in it. -/
theorem C10_update_expires_zero_sentinel_witness :
    (0 : Int) = 0 ∧ row_well_formed sample_row_expires ∧
    (sample_row_expires.update_expires (some 0) =
      sample_row_expires.update_expires none ∧
    (sample_row_expires.update_expires (some 0)).2.get_expires = none ∧
    ¬ contains_expires
      (sample_row_expires.update_expires (some 0)).2.write_json) := by
  refine ⟨rfl, by decide, ?_, ?_, ?_⟩
  · exact (C10_update_expires_zero_sentinel sample_row_expires 0 rfl).1
  · exact (C10_update_expires_zero_sentinel sample_row_expires 0 rfl).2.1
  · exact (C10_update_expires_zero_sentinel sample_row_expires 0 rfl).2.2
      (by decide)

end MyNoSql
